import Mathlib

/-!
Verification of the NVT telnet stack (nvt.py, telnet_server.py, web_client.py).

Modelling conventions of this shallow embedding:
* Python `bytes` values are `List Nat` with every element below 256.
* Python `str` values are `List Nat` of Unicode code points.
* Python distinguishes `str` from `bytes`; `==` between the two kinds is
  always `False`.  `PyVal` reproduces this where the code mixes the two.
* Python dicts keyed by option bytes are modelled as `List Nat → Option Bool`.
-/

/-- Python equality between values that may be str or bytes: equal only when
the kinds agree and the contents agree (a str never equals a bytes). -/
inductive PyVal where
  | vstr (cs : List Nat)
  | vbytes (bs : List Nat)
  deriving DecidableEq, Repr

def pyEq : PyVal → PyVal → Bool
  | .vstr a, .vstr b => a = b
  | .vbytes a, .vbytes b => a = b
  | _, _ => false

/-- UTF-8 encoding of one code point, mirroring `str.encode("utf-8", errors="replace")`:
a lone surrogate is unencodable and is replaced by a question mark (0x3F). -/
def utf8EncodeChar (c : Nat) : List Nat :=
  if c < 0x80 then [c]
  else if c < 0x800 then [0xC0 + c / 64, 0x80 + c % 64]
  else if 0xD800 ≤ c ∧ c < 0xE000 then [0x3F]
  else if c < 0x10000 then [0xE0 + c / 4096, 0x80 + c / 64 % 64, 0x80 + c % 64]
  else [0xF0 + c / 0x40000, 0x80 + c / 4096 % 64, 0x80 + c / 64 % 64, 0x80 + c % 64]

def utf8Encode (s : List Nat) : List Nat :=
  (s.map utf8EncodeChar).flatten

def isUtf8Cont (b : Nat) : Bool := 0x80 ≤ b ∧ b ≤ 0xBF

/-- Validity of the first continuation byte of a multi-byte UTF-8 sequence
depends on the lead byte (tight ranges that exclude overlong forms and
surrogates). -/
def utf8Cont1Ok (lead c1 : Nat) : Bool :=
  if lead = 0xE0 then 0xA0 ≤ c1 ∧ c1 ≤ 0xBF
  else if lead = 0xED then 0x80 ≤ c1 ∧ c1 ≤ 0x9F
  else if lead = 0xF0 then 0x90 ≤ c1 ∧ c1 ≤ 0xBF
  else if lead = 0xF4 then 0x80 ≤ c1 ∧ c1 ≤ 0x8F
  else isUtf8Cont c1

/-- UTF-8 decoding with `errors="replace"`, mirroring `bytes.decode("utf-8", "replace")`:
each maximal invalid subsequence yields one U+FFFD, per the substitution of
maximal subparts that CPython implements. -/
def utf8DecodeReplace : List Nat → List Nat
  | [] => []
  | b :: r =>
    if b < 0x80 then b :: utf8DecodeReplace r
    else if 0xC2 ≤ b ∧ b ≤ 0xDF then
      match r with
      | [] => [0xFFFD]
      | c1 :: r1 =>
        if isUtf8Cont c1 then ((b - 0xC0) * 64 + (c1 - 0x80)) :: utf8DecodeReplace r1
        else 0xFFFD :: utf8DecodeReplace (c1 :: r1)
    else if 0xE0 ≤ b ∧ b ≤ 0xEF then
      match r with
      | [] => [0xFFFD]
      | c1 :: r1 =>
        if utf8Cont1Ok b c1 then
          match r1 with
          | [] => [0xFFFD]
          | c2 :: r2 =>
            if isUtf8Cont c2 then
              ((b - 0xE0) * 4096 + (c1 - 0x80) * 64 + (c2 - 0x80)) :: utf8DecodeReplace r2
            else 0xFFFD :: utf8DecodeReplace (c2 :: r2)
        else 0xFFFD :: utf8DecodeReplace (c1 :: r1)
    else if 0xF0 ≤ b ∧ b ≤ 0xF4 then
      match r with
      | [] => [0xFFFD]
      | c1 :: r1 =>
        if utf8Cont1Ok b c1 then
          match r1 with
          | [] => [0xFFFD]
          | c2 :: r2 =>
            if isUtf8Cont c2 then
              match r2 with
              | [] => [0xFFFD]
              | c3 :: r3 =>
                if isUtf8Cont c3 then
                  ((b - 0xF0) * 0x40000 + (c1 - 0x80) * 4096 + (c2 - 0x80) * 64 + (c3 - 0x80))
                    :: utf8DecodeReplace r3
                else 0xFFFD :: utf8DecodeReplace (c3 :: r3)
            else 0xFFFD :: utf8DecodeReplace (c2 :: r2)
        else 0xFFFD :: utf8DecodeReplace (c1 :: r1)
    else 0xFFFD :: utf8DecodeReplace r

/-- Code points that `str.strip()` removes (ASCII whitespace plus the
further Unicode whitespace code points Python treats as space). -/
def isPySpace (c : Nat) : Bool :=
  c = 9 ∨ c = 10 ∨ c = 11 ∨ c = 12 ∨ c = 13 ∨ c = 28 ∨ c = 29 ∨ c = 30 ∨ c = 31 ∨
  c = 32 ∨ c = 0x85 ∨ c = 0xA0 ∨ c = 0x1680 ∨
  (0x2000 ≤ c ∧ c ≤ 0x200A) ∨ c = 0x2028 ∨ c = 0x2029 ∨ c = 0x202F ∨ c = 0x205F ∨ c = 0x3000

/-- Model of `str.strip()`: drop leading and trailing whitespace. -/
def stripWs (l : List Nat) : List Nat :=
  ((l.dropWhile isPySpace).reverse.dropWhile isPySpace).reverse

/-- Model of `bytes.replace(b"\r\n", b"\n")`: one left-to-right pass,
continuing after each replacement. -/
def replCRLF : List Nat → List Nat
  | 13 :: 10 :: r => 10 :: replCRLF r
  | b :: r => b :: replCRLF r
  | [] => []

/-- Model of `bytes.replace(b"\r\x00", b"\n")`. -/
def replCRNUL : List Nat → List Nat
  | 13 :: 0 :: r => 10 :: replCRNUL r
  | b :: r => b :: replCRNUL r
  | [] => []

/-- Model of `bytes.replace(b"\r", b"\n")`. -/
def replCR : List Nat → List Nat
  | 13 :: r => 10 :: replCR r
  | b :: r => b :: replCR r
  | [] => []

/-- The decoder's newline normalization chain, `nvt.py` lines 212 to 214. -/
def pyNormalize (l : List Nat) : List Nat :=
  replCR (replCRNUL (replCRLF l))

/-- Modelled from the spec: normalize_newlines maps each CR-LF, CR-NUL,
bare CR and bare LF occurrence to a single newline character (a bare LF is
already the newline character, so it is kept). -/
def normalize_newlines : List Nat → List Nat
  | 13 :: 10 :: r => 10 :: normalize_newlines r
  | 13 :: 0 :: r => 10 :: normalize_newlines r
  | 13 :: r => 10 :: normalize_newlines r
  | b :: r => b :: normalize_newlines r
  | [] => []

/-- The byte loop of `NVTEncoder.encode_text` (nvt.py lines 86 to 105),
appending to the accumulated output exactly as the Python loop does and
checking whether the last output byte is CR. -/
def encodeLoop (acc : List Nat) : List Nat → List Nat
  | [] => acc
  | b :: rest =>
    if b = 255 then encodeLoop (acc ++ [255, 255]) rest
    else if b = 10 then
      if acc.getLast? = some 13 then encodeLoop (acc ++ [10]) rest
      else encodeLoop (acc ++ [13, 10]) rest
    else if b = 13 then encodeLoop (acc ++ [13]) rest
    else encodeLoop (acc ++ [b]) rest

/-- Trailing fix of `encode_text` (nvt.py lines 108 to 109): a final CR with
no following LF is completed to CR NUL. -/
def encodeFinalize (r : List Nat) : List Nat :=
  if r.getLast? = some 13 then r ++ [0] else r

/-- The byte-level body of `encode_text` applied to already-transcoded data. -/
def encodeTextData (data : List Nat) : List Nat :=
  encodeFinalize (encodeLoop [] data)

/-- Lookahead-style restatement of the encoder loop: the flag records
whether the previous input byte was CR, which is equivalent to the last
output byte being CR.  Proved equal to `encodeTextData` below; used to
reason about the loop compositionally. -/
def encAux : Bool → List Nat → List Nat
  | p, [] => if p then [0] else []
  | p, b :: r =>
    if b = 255 then 255 :: 255 :: encAux false r
    else if b = 10 then
      if p then 10 :: encAux false r else 13 :: 10 :: encAux false r
    else if b = 13 then 13 :: encAux true r
    else b :: encAux false r

/-- `NVTEncoder.encode_text` on a str input: the text is first taken as
UTF-8 bytes (nvt.py line 83), then the NVT byte transformations run. -/
def encode_text (t : List Nat) : List Nat :=
  encodeTextData (utf8Encode t)

/-- `NVTEncoder.encode_text` on a bytes input: nvt.py lines 79 to 80 first
decode the bytes as UTF-8 with errors replaced, then proceed as for str. -/
def encode_text_ofBytes (bs : List Nat) : List Nat :=
  encode_text (utf8DecodeReplace bs)

/-- `NVTEncoder.create_command`: `if option:` is false for an empty bytes. -/
def create_command (command : List Nat) (option : List Nat) : List Nat :=
  if option ≠ [] then 255 :: command ++ option else 255 :: command

/-- `NVTEncoder.encode_with_padding`: encode, then pad with spaces when the
encoding is shorter than the chunk size, else return it unpadded. -/
def encode_with_padding (t : List Nat) (chunkSize : Nat) : List Nat :=
  let encoded := encode_text t
  if encoded.length < chunkSize then encoded ++ List.replicate (chunkSize - encoded.length) 32
  else encoded

/-- Persistent decoder state of `NVTDecoder`: the in-IAC flag and the
pending two-byte command awaiting its option byte. -/
structure DecoderState where
  in_iac : Bool
  iac_command : Option Nat
  deriving DecidableEq, Repr

def freshDecoder : DecoderState := ⟨false, none⟩

/-- One command entry appended by `decode_bytes`: the first component is
always a Python str (either the latin-1 decoding of the verb byte or the
literal string COMMAND), the second is the single option byte. -/
abbrev CmdEntry := PyVal × List Nat

/-- The string COMMAND used for simple commands, as code points. -/
def commandTag : List Nat := [67, 79, 77, 77, 65, 78, 68]

/-- The byte loop of `NVTDecoder.decode_bytes` (nvt.py lines 175 to 208),
returning the raw text bytes, the command list and the final state. -/
def decodeLoop (st : DecoderState) : List Nat → List Nat × List CmdEntry × DecoderState
  | [] => ([], [], st)
  | b :: rest =>
    if st.in_iac then
      match st.iac_command with
      | none =>
        if b = 255 then
          let (t, c, s) := decodeLoop ⟨false, st.iac_command⟩ rest
          (255 :: t, c, s)
        else if b = 251 ∨ b = 252 ∨ b = 253 ∨ b = 254 then
          decodeLoop ⟨st.in_iac, some b⟩ rest
        else if b = 240 ∨ b = 241 ∨ b = 242 ∨ b = 243 ∨ b = 244 ∨
                b = 245 ∨ b = 246 ∨ b = 247 ∨ b = 248 ∨ b = 249 then
          let (t, c, s) := decodeLoop ⟨false, st.iac_command⟩ rest
          (t, (PyVal.vstr commandTag, [b]) :: c, s)
        else decodeLoop ⟨false, st.iac_command⟩ rest
      | some cmd =>
        let (t, c, s) := decodeLoop ⟨false, none⟩ rest
        (t, (PyVal.vstr [cmd], [b]) :: c, s)
    else if b = 255 then decodeLoop ⟨true, st.iac_command⟩ rest
    else
      let (t, c, s) := decodeLoop st rest
      (b :: t, c, s)

/-- `NVTDecoder.decode_bytes`: run the byte loop, then normalize newlines,
decode as UTF-8 with replacement and strip, returning text, commands and
the decoder state left behind for the next call. -/
def decode_bytes (st : DecoderState) (data : List Nat) :
    List Nat × List CmdEntry × DecoderState :=
  let (tb, cs, st2) := decodeLoop st data
  (stripWs (utf8DecodeReplace (pyNormalize tb)), cs, st2)

/-- Session state of `NVTSession`: the two option dicts and the decoder. -/
structure SessionState where
  local_options : List Nat → Option Bool
  remote_options : List Nat → Option Bool
  decoder : DecoderState

def freshSession : SessionState :=
  ⟨fun _ => none, fun _ => none, freshDecoder⟩

/-- Model of a Python dict assignment `d[k] = v`. -/
def dictSet (m : List Nat → Option Bool) (k : List Nat) (v : Bool) : List Nat → Option Bool :=
  fun q => if q = k then some v else m q

/-- `NVTSession.negotiate_option`: build WILL or WONT for the option; the
method writes no session state. -/
def negotiate_option (st : SessionState) (option_type : List Nat) (enable : Bool) :
    List Nat × SessionState :=
  if enable then (create_command [251] option_type, st)
  else (create_command [252] option_type, st)

/-- `NVTSession.respond_to_option` (nvt.py lines 266 to 301).  The command
argument is compared with Python equality against the bytes constants WILL,
WONT, DO, DONT; any other value falls through to an empty reply. -/
def respond_to_option (st : SessionState) (command : PyVal) (option : List Nat)
    (accept : Bool) : List Nat × SessionState :=
  if pyEq command (PyVal.vbytes [251]) then
    if accept then
      (create_command [253] option,
        { st with remote_options := dictSet st.remote_options option true })
    else (create_command [254] option, st)
  else if pyEq command (PyVal.vbytes [252]) then
    (create_command [254] option,
      { st with remote_options := dictSet st.remote_options option false })
  else if pyEq command (PyVal.vbytes [253]) then
    if accept then
      (create_command [251] option,
        { st with local_options := dictSet st.local_options option true })
    else (create_command [252] option, st)
  else if pyEq command (PyVal.vbytes [254]) then
    (create_command [252] option,
      { st with local_options := dictSet st.local_options option false })
  else ([], st)

/-- `NVTSession.send_text`: `if chunk_size:` is false for None and for 0. -/
def send_text (st : SessionState) (t : List Nat) (chunk_size : Option Nat) :
    List Nat × SessionState :=
  match chunk_size with
  | some n => if n ≠ 0 then (encode_with_padding t n, st) else (encode_text t, st)
  | none => (encode_text t, st)

/-- The auto-response loop of `NVTSession.receive_data` (nvt.py lines 331
to 338): each command whose verb equals one of the bytes constants WILL,
WONT, DO, DONT is answered, with acceptance exactly for the option bytes
ECHO, SUPPRESS-GO-AHEAD and TERMINAL-TYPE; a falsy (empty) response is not
collected. -/
def autoRespond (st : SessionState) : List CmdEntry → List (List Nat) × SessionState
  | [] => ([], st)
  | (cmd, opt) :: rest =>
    if pyEq cmd (PyVal.vbytes [251]) ∨ pyEq cmd (PyVal.vbytes [252]) ∨
       pyEq cmd (PyVal.vbytes [253]) ∨ pyEq cmd (PyVal.vbytes [254]) then
      let accept := opt = [1] ∨ opt = [3] ∨ opt = [24]
      let (resp, st2) := respond_to_option st cmd opt accept
      let (rs, st3) := autoRespond st2 rest
      (if resp ≠ [] then resp :: rs else rs, st3)
    else autoRespond st rest

/-- `NVTSession.receive_data`: decode, then feed the observed commands
through the auto-response loop; returns text, responses and new state. -/
def receive_data (st : SessionState) (data : List Nat) :
    List Nat × List (List Nat) × SessionState :=
  let (text, commands, dst) := decode_bytes st.decoder data
  let (responses, st2) := autoRespond { st with decoder := dst } commands
  (text, responses, st2)

/-- Code points of a string literal (all our literals are ASCII). -/
def strCp (s : String) : List Nat := s.toList.map Char.toNat

/-- Decimal digits of a natural number, as code points. -/
def natToDec (n : Nat) : List Nat := strCp (toString n)

/-- Fuel-driven worker for `pySplit`; the fuel bounds the recursion depth
and `l.length` units always suffice because every round consumes at least
the first non-space code point. -/
def pySplitAux : Nat → List Nat → List (List Nat)
  | 0, _ => []
  | fuel + 1, l =>
    match l.dropWhile isPySpace with
    | [] => []
    | c :: r =>
      ((c :: r).takeWhile (fun x => ¬ isPySpace x))
        :: pySplitAux fuel ((c :: r).dropWhile (fun x => ¬ isPySpace x))

/-- Model of `str.split()` with no arguments: split on runs of whitespace,
discarding empty pieces. -/
def pySplit (l : List Nat) : List (List Nat) :=
  pySplitAux (l.length + 1) l

/-- Model of `" ".join(parts)`. -/
def joinSpace : List (List Nat) → List Nat
  | [] => []
  | [p] => p
  | p :: rest => p ++ 32 :: joinSpace rest

/-- Model of `str.lower()` on the ASCII range (all dispatch comparisons are
against pure-ASCII verbs). -/
def lowerAscii (l : List Nat) : List Nat :=
  l.map fun c => if 65 ≤ c ∧ c ≤ 90 then c + 32 else c

/-- Lexer modes of `shlex` in POSIX mode: outside quotes, inside single or
double quotes, or just after an escape character (from outside quotes or
from inside double quotes). -/
inductive ShMode where
  | norm | squote | dquote | escN | escD
  deriving DecidableEq

/-- The whitespace characters `shlex` splits on. -/
def shWs (c : Nat) : Bool := c = 32 ∨ c = 9 ∨ c = 13 ∨ c = 10

/-- Worker for `shlex.split`: mode, token under construction (none when no
token has started) and remaining input; errors carry the `ValueError`
message text. -/
def shlexAux (mode : ShMode) (tok : Option (List Nat)) :
    List Nat → Except (List Nat) (List (List Nat))
  | [] =>
    match mode with
    | .norm => .ok (match tok with | none => [] | some t => [t])
    | .squote | .dquote => .error (strCp "No closing quotation")
    | .escN | .escD => .error (strCp "No escaped character")
  | c :: r =>
    match mode with
    | .norm =>
      if shWs c then
        match tok with
        | none => shlexAux .norm none r
        | some t =>
          match shlexAux .norm none r with
          | .ok ts => .ok (t :: ts)
          | .error e => .error e
      else if c = 39 then shlexAux .squote (some (tok.getD [])) r
      else if c = 34 then shlexAux .dquote (some (tok.getD [])) r
      else if c = 92 then shlexAux .escN (some (tok.getD [])) r
      else shlexAux .norm (some (tok.getD [] ++ [c])) r
    | .squote =>
      if c = 39 then shlexAux .norm tok r
      else shlexAux .squote (some (tok.getD [] ++ [c])) r
    | .dquote =>
      if c = 34 then shlexAux .norm tok r
      else if c = 92 then shlexAux .escD tok r
      else shlexAux .dquote (some (tok.getD [] ++ [c])) r
    | .escN => shlexAux .norm (some (tok.getD [] ++ [c])) r
    | .escD =>
      if c = 34 ∨ c = 92 then shlexAux .dquote (some (tok.getD [] ++ [c])) r
      else shlexAux .dquote (some (tok.getD [] ++ [92, c])) r

/-- Model of `shlex.split` in POSIX mode with whitespace splitting, as used
by `telnet_server.py` line 230. -/
def shlexSplit (s : List Nat) : Except (List Nat) (List (List Nat)) :=
  shlexAux .norm none s

instance {α β : Type} [DecidableEq α] [DecidableEq β] : DecidableEq (Except α β) :=
  fun a b =>
    match a, b with
    | .ok x, .ok y =>
      if h : x = y then isTrue (h ▸ rfl) else isFalse fun hh => h (Except.ok.inj hh)
    | .error x, .error y =>
      if h : x = y then isTrue (h ▸ rfl) else isFalse fun hh => h (Except.error.inj hh)
    | .ok _, .error _ => isFalse Except.noConfusion
    | .error _, .ok _ => isFalse Except.noConfusion

/-- The OS-dependent exec allowlist of `telnet_server.py` lines 222 to 228,
including the duplicated common entries the code appends. -/
def allowed_cmds (os_nt : Bool) : List (List Nat) :=
  (if os_nt then
    [strCp "dir", strCp "cd", strCp "type", strCp "echo", strCp "whoami",
     strCp "date", strCp "time", strCp "set"]
  else
    [strCp "ls", strCp "pwd", strCp "cat", strCp "whoami", strCp "date",
     strCp "echo", strCp "ps", strCp "id", strCp "uname"])
  ++ [strCp "echo", strCp "whoami"]

/-- The parameters of the `subprocess.run` call at `telnet_server.py`
lines 234 to 240: the argument vector, whether a shell is used (the call
leaves `shell` at its default `False`), and the wall-clock timeout. -/
structure SpawnRequest where
  argv : List (List Nat)
  useShell : Bool
  timeoutSecs : Nat
  deriving DecidableEq, Repr

/-- Outcome of the spawned process, supplied as an oracle because process
execution is outside the model: captured stdout and stderr text, or a
`TimeoutExpired`. -/
inductive ExecOutcome where
  | completed (stdout stderr : List Nat)
  | timedOut
  deriving DecidableEq, Repr

/-- `send_nvt_data` of `telnet_server.py`: NVT-encode, padding to the
4096-byte chunk size only when `padded` is set. -/
def sendNvtData (t : List Nat) (padded : Bool) : List Nat :=
  if padded then encode_with_padding t 4096 else encode_text t

/-- Joining with a comma and space, as in the join inside the not-allowed
message. -/
def joinCommaSpace : List (List Nat) → List Nat
  | [] => []
  | [p] => p
  | p :: rest => p ++ 44 :: 32 :: joinCommaSpace rest

/-- The ValueError message built at `telnet_server.py` line 232. -/
def notAllowedMsg (os_nt : Bool) (name : List Nat) : List Nat :=
  strCp "Command " ++ [39] ++ name ++ [39] ++ strCp " not allowed. Try: " ++
    joinCommaSpace ((allowed_cmds os_nt).take 5) ++ strCp "..."

/-- The exec branch of `recv_and_process` (lines 212 to 256): tokenize with
shlex, reject a first token outside the allowlist before any spawn, else
spawn without a shell under a 30 second timeout and frame the reply; every
reply on this branch is padded, and the branch always continues. -/
def handleExec (os_nt : Bool) (outcome : ExecOutcome) (exec_cmd : List Nat) :
    Option SpawnRequest × List (List Nat) × Bool :=
  match shlexSplit exec_cmd with
  | .error msg =>
    (none, [sendNvtData (strCp "[Server] Error: " ++ msg ++ [10]) true], true)
  | .ok parts =>
    let name := match parts with | [] => strCp "unknown" | h :: _ => h
    if parts = [] ∨ ¬ (allowed_cmds os_nt).contains name then
      (none,
        [sendNvtData (strCp "[Server] Error: " ++ notAllowedMsg os_nt name ++ [10]) true],
        true)
    else
      match outcome with
      | .completed so se =>
        let stdout := if so = [] then strCp "(empty)" else so
        let stderr := if se = [] then strCp "(none)" else se
        (some ⟨parts, false, 30⟩,
          [sendNvtData (strCp "[Server response]\nOutput:\n" ++ stdout ++
            strCp "\nError:\n" ++ stderr ++ [10]) true],
          true)
      | .timedOut =>
        (some ⟨parts, false, 30⟩,
          [sendNvtData (strCp "[Server] Error: Command timeout\n") true], true)

/-- Model of `int(s)` on an already-stripped string: an optional sign
followed by at least one ASCII digit (the underscore digit separators
Python also accepts are outside this model). -/
def pyInt (l : List Nat) : Option Int :=
  let digitsVal : List Nat → Option Nat := fun ds =>
    if ds = [] ∨ ¬ ds.all (fun c => 48 ≤ c ∧ c ≤ 57) then none
    else some (ds.foldl (fun a c => a * 10 + (c - 48)) 0)
  match l with
  | 43 :: r => (digitsVal r).map Int.ofNat
  | 45 :: r => (digitsVal r).map fun n => -(n : Int)
  | r => (digitsVal r).map Int.ofNat

/-- Inputs that reach one `recv_and_process` round from outside the
dispatcher: the OS flavour, the decoded text of the follow-up frames the
branch may read, the binary bytes available on the socket, the server's
uploads directory as an association list, and the exec oracle. -/
structure ServerEnv where
  os_nt : Bool
  sizeFrameText : List Nat
  uploadedBytes : List Nat
  messageText : List Nat
  uploadsDir : List (List Nat × List Nat)
  execOutcome : ExecOutcome

/-- Association lookup standing for the `os.path.exists` check and read of
a file in the uploads directory. -/
def lookupFile (dir : List (List Nat × List Nat)) (name : List Nat) : Option (List Nat) :=
  match dir with
  | [] => none
  | (n, c) :: rest => if n = name then some c else lookupFile rest name

/-- Observable effect of one `recv_and_process` round: the byte sequences
written to the socket in order, whether the loop continues, the spawn
request if a process was started, and the file saved by an upload. -/
structure ServerStep where
  writes : List (List Nat)
  cont : Bool
  spawned : Option SpawnRequest
  saved : Option (List Nat × List Nat)
  deriving Repr

/-- The dispatcher of `recv_and_process` (telnet_server.py lines 148 to
324) after the command frame has been received and decoded.  The raw file
bytes of a download are written in 4096-byte slices; the model records the
concatenated stream, which is the same byte sequence on the wire. -/
def recvAndProcess (env : ServerEnv) (command : List Nat) : ServerStep :=
  if command = [] then ⟨[], true, none, none⟩
  else
    match pySplit command with
    | [] => ⟨[], true, none, none⟩
    | first :: restParts =>
      let main_cmd := lowerAscii first
      if main_cmd = strCp "upload" then
        if restParts = [] then
          ⟨[sendNvtData (strCp "[Server] Error: No filename provided\n") false], true, none, none⟩
        else
          let filename := joinSpace restParts
          match pyInt env.sizeFrameText with
          | none =>
            ⟨[sendNvtData (strCp "[Server] Error: Invalid file size\n") false], true, none, none⟩
          | some file_size =>
            let received := env.uploadedBytes.take file_size.toNat
            ⟨[sendNvtData (strCp "[Server] Received " ++ natToDec received.length ++
                strCp " bytes and saved as " ++ [39] ++ filename ++ [39] ++ [10]) false],
              true, none, some (filename, received)⟩
      else if main_cmd = strCp "exec" then
        if restParts = [] then
          ⟨[sendNvtData (strCp "[Server] Error: No command provided\n") true], true, none, none⟩
        else
          let (sp, w, c) := handleExec env.os_nt env.execOutcome (joinSpace restParts)
          ⟨w, c, sp, none⟩
      else if main_cmd = strCp "download" then
        if restParts = [] then
          ⟨[sendNvtData (strCp "[Server] Error: No filename provided\n") false], true, none, none⟩
        else
          let filename := joinSpace restParts
          match lookupFile env.uploadsDir filename with
          | none => ⟨[[48, 10]], true, none, none⟩
          | some contents =>
            ⟨[natToDec contents.length ++ [10], contents], true, none, none⟩
      else if main_cmd = strCp "quit" then
        ⟨[sendNvtData (strCp "[Server] Goodbye!\n") false], false, none, none⟩
      else if main_cmd = strCp "send" ∧ restParts.head? = some (strCp "message") then
        ⟨[sendNvtData (strCp "[Server response] Got " ++ natToDec env.messageText.length ++
            strCp " bytes of your message.\n") false], true, none, none⟩
      else
        ⟨[sendNvtData (strCp "[Server] Unknown command: " ++ main_cmd ++ [10] ++
            strCp "[Server] Available commands: send message, upload, download, exec, quit\n")
            false], true, none, none⟩

/-- Model of the regex search for the first digit run, `web_client.py`
line 235 (ASCII digits; the inputs at issue are ASCII). -/
def extractNum (l : List Nat) : Option Nat :=
  match l.dropWhile (fun c => ¬ (48 ≤ c ∧ c ≤ 57)) with
  | [] => none
  | ds =>
    some ((ds.takeWhile fun c => 48 ≤ c ∧ c ≤ 57).foldl (fun a c => a * 10 + (c - 48)) 0)

/-- What `download_file` does once the size frame text is in hand
(web_client.py lines 235 to 256): an error result returns immediately and
reads no binary data; otherwise the declared byte count is read. -/
inductive ClientDlStep where
  | errorResult (status error : List Nat)
  | needBinary (size : Nat)
  deriving DecidableEq, Repr

def downloadSizeStep (size_text : List Nat) : ClientDlStep :=
  match extractNum size_text with
  | none => .errorResult (strCp "Error") (strCp "Invalid size: " ++ size_text)
  | some 0 => .errorResult (strCp "Error") (strCp "File not found on server")
  | some n => .needBinary n

/-- Substring test, Python `sub in s`. -/
def containsSub (s sub : List Nat) : Bool :=
  if sub.isPrefixOf s then true
  else
    match s with
    | [] => false
    | _ :: r => containsSub r sub

/-- First-occurrence split, Python `s.split(sep, 1)` for a nonempty sep. -/
def splitOnceAux (s sep : List Nat) : Option (List Nat × List Nat) :=
  if sep.isPrefixOf s then some ([], s.drop sep.length)
  else
    match s with
    | [] => none
    | c :: r =>
      match splitOnceAux r sep with
      | none => none
      | some (a, b) => some (c :: a, b)

def pySplitOnce (s sep : List Nat) : List (List Nat) :=
  match splitOnceAux s sep with
  | none => [s]
  | some (a, b) => [a, b]

/-- The result dictionary of `exec_command` on the success path
(web_client.py lines 150 to 157). -/
structure ExecResult where
  status : List Nat
  stdout : List Nat
  stderr : List Nat
  full_output : List Nat
  exit_code : Nat
  deriving DecidableEq, Repr

/-- The stdout and stderr extraction of `exec_command` (web_client.py
lines 140 to 148). -/
def execParseStd (output : List Nat) : List Nat × List Nat :=
  if containsSub output (strCp "Output:") ∧ containsSub output (strCp "Error:") then
    match pySplitOnce output (strCp "Output:") with
    | [_, after] =>
      (match pySplitOnce after (strCp "Error:") with
       | [a] => (stripWs a, ([] : List Nat))
       | [a, b] => (stripWs a, stripWs b)
       | _ => ([], []))
    | _ => ([], [])
  else (stripWs output, [])

/-- The reply-parsing logic of `exec_command` (web_client.py lines 140 to
157), applied to the decoded reply-frame text: the exit code is 0 exactly
when the extracted stderr text is empty. -/
def execParse (output : List Nat) : ExecResult :=
  ⟨strCp "Executed", (execParseStd output).1, (execParseStd output).2, output,
    if (execParseStd output).2 = [] then 0 else 1⟩

/-! ## Helper lemmas -/

theorem decodeLoop_cmds_vstr : ∀ (data : List Nat) (st : DecoderState) (e : CmdEntry),
    e ∈ (decodeLoop st data).2.1 → ∃ s, e.1 = PyVal.vstr s := by
  intro data
  induction data with
  | nil => intro st e h; simp [decodeLoop] at h
  | cons b rest ih =>
    intro st e h
    rcases st with ⟨iac, cmd⟩
    cases iac with
    | false =>
      by_cases hb : b = 255
      · simp [decodeLoop, hb] at h
        exact ih _ _ h
      · rcases h2 : decodeLoop ⟨false, cmd⟩ rest with ⟨t, c, s⟩
        simp [decodeLoop, hb, h2] at h
        have := ih ⟨false, cmd⟩ e
        rw [h2] at this
        exact this h
    | true =>
      cases cmd with
      | none =>
        by_cases hb : b = 255
        · rcases h2 : decodeLoop ⟨false, none⟩ rest with ⟨t, c, s⟩
          simp [decodeLoop, hb, h2] at h
          have := ih ⟨false, none⟩ e
          rw [h2] at this
          exact this h
        · by_cases hw : b = 251 ∨ b = 252 ∨ b = 253 ∨ b = 254
          · simp [decodeLoop, hb, hw] at h
            exact ih _ _ h
          · by_cases hs : b = 240 ∨ b = 241 ∨ b = 242 ∨ b = 243 ∨ b = 244 ∨
                b = 245 ∨ b = 246 ∨ b = 247 ∨ b = 248 ∨ b = 249
            · rcases h2 : decodeLoop ⟨false, none⟩ rest with ⟨t, c, s⟩
              simp [decodeLoop, hb, hw, hs, h2] at h
              rcases h with h | h
              · exact ⟨commandTag, by rw [h]⟩
              · have := ih ⟨false, none⟩ e
                rw [h2] at this
                exact this h
            · simp [decodeLoop, hb, hw, hs] at h
              exact ih _ _ h
      | some cv =>
        rcases h2 : decodeLoop ⟨false, none⟩ rest with ⟨t, c, s⟩
        simp [decodeLoop, h2] at h
        rcases h with h | h
        · exact ⟨[cv], by rw [h]⟩
        · have := ih ⟨false, none⟩ e
          rw [h2] at this
          exact this h

theorem autoRespond_vstr : ∀ (cs : List CmdEntry) (st : SessionState),
    (∀ e ∈ cs, ∃ s, e.1 = PyVal.vstr s) → autoRespond st cs = ([], st) := by
  intro cs
  induction cs with
  | nil => intro st _; rfl
  | cons e rest ih =>
    intro st h
    obtain ⟨s, hs⟩ := h e (by simp)
    rcases e with ⟨v, opt⟩
    simp at hs
    subst hs
    simp [autoRespond, pyEq]
    exact ih st fun e he => h e (by simp [he])

theorem receive_data_responses_nil (st : SessionState) (data : List Nat) :
    (receive_data st data).2.1 = [] ∧
    (receive_data st data).2.2 = { st with decoder := (decodeLoop st.decoder data).2.2 } := by
  unfold receive_data decode_bytes
  rcases h : decodeLoop st.decoder data with ⟨t, c, s⟩
  have hv : ∀ e ∈ c, ∃ s2, (e : CmdEntry).1 = PyVal.vstr s2 := by
    intro e he
    have := decodeLoop_cmds_vstr data st.decoder e
    rw [h] at this
    exact this he
  simp [autoRespond_vstr c _ hv, h]

theorem decodeLoop_append : ∀ (s1 : List Nat) (st : DecoderState) (s2 : List Nat),
    decodeLoop st (s1 ++ s2) =
      ((decodeLoop st s1).1 ++ (decodeLoop (decodeLoop st s1).2.2 s2).1,
       (decodeLoop st s1).2.1 ++ (decodeLoop (decodeLoop st s1).2.2 s2).2.1,
       (decodeLoop (decodeLoop st s1).2.2 s2).2.2) := by
  intro s1
  induction s1 with
  | nil => intro st s2; simp [decodeLoop]
  | cons b rest ih =>
    intro st s2
    rcases st with ⟨iac, cmd⟩
    cases iac with
    | false =>
      by_cases hb : b = 255
      · simp [decodeLoop, hb, ih]
      · rcases h2 : decodeLoop ⟨false, cmd⟩ rest with ⟨t, c, s⟩
        have := ih ⟨false, cmd⟩ s2
        rw [h2] at this
        simp [decodeLoop, hb, h2, this]
    | true =>
      cases cmd with
      | none =>
        by_cases hb : b = 255
        · rcases h2 : decodeLoop ⟨false, none⟩ rest with ⟨t, c, s⟩
          have := ih ⟨false, none⟩ s2
          rw [h2] at this
          simp [decodeLoop, hb, h2, this]
        · by_cases hw : b = 251 ∨ b = 252 ∨ b = 253 ∨ b = 254
          · simp [decodeLoop, hb, hw, ih]
          · by_cases hs : b = 240 ∨ b = 241 ∨ b = 242 ∨ b = 243 ∨ b = 244 ∨
                b = 245 ∨ b = 246 ∨ b = 247 ∨ b = 248 ∨ b = 249
            · rcases h2 : decodeLoop ⟨false, none⟩ rest with ⟨t, c, s⟩
              have := ih ⟨false, none⟩ s2
              rw [h2] at this
              simp [decodeLoop, hb, hw, hs, h2, this]
            · simp [decodeLoop, hb, hw, hs, ih]
      | some cv =>
        rcases h2 : decodeLoop ⟨false, none⟩ rest with ⟨t, c, s⟩
        have := ih ⟨false, none⟩ s2
        rw [h2] at this
        simp [decodeLoop, h2, this]

theorem create_command_eq (c o : List Nat) : create_command c o = 255 :: (c ++ o) := by
  unfold create_command
  split <;> simp_all

theorem decode_bytes_proj (st : DecoderState) (x : List Nat) :
    (decode_bytes st x).2.1 = (decodeLoop st x).2.1 ∧
    (decode_bytes st x).2.2 = (decodeLoop st x).2.2 := by
  unfold decode_bytes
  rcases h : decodeLoop st x with ⟨t, c, s⟩
  simp

/-! ## Claim theorems -/

/-- C7: respond_to_option answers WILL with DO and records the remote
option when accepting, answers WILL with DONT and leaves the maps alone
when refusing, answers DO with WILL recording the local option (WONT when
refusing), and records the option disabled replying DONT to WONT and WONT
to DONT. -/
theorem respond_to_option_cases (st : SessionState) (opt : List Nat) (acc : Bool) :
    respond_to_option st (PyVal.vbytes [251]) opt true =
      (255 :: 253 :: opt, { st with remote_options := dictSet st.remote_options opt true }) ∧
    respond_to_option st (PyVal.vbytes [251]) opt false = (255 :: 254 :: opt, st) ∧
    respond_to_option st (PyVal.vbytes [253]) opt true =
      (255 :: 251 :: opt, { st with local_options := dictSet st.local_options opt true }) ∧
    respond_to_option st (PyVal.vbytes [253]) opt false = (255 :: 252 :: opt, st) ∧
    respond_to_option st (PyVal.vbytes [252]) opt acc =
      (255 :: 254 :: opt, { st with remote_options := dictSet st.remote_options opt false }) ∧
    respond_to_option st (PyVal.vbytes [254]) opt acc =
      (255 :: 252 :: opt, { st with local_options := dictSet st.local_options opt false }) := by
  simp [respond_to_option, pyEq, create_command_eq]

/-- C10: the option maps survive negotiate_option, send_text and
receive_data unchanged, and respond_to_option on any command value other
than the WILL, WONT, DO, DONT bytes returns empty bytes and leaves the
session untouched. -/
theorem option_maps_only_respond (st : SessionState) (opt text data : List Nat)
    (en acc : Bool) (cs : Option Nat) (v : PyVal) :
    (negotiate_option st opt en).2 = st ∧
    (send_text st text cs).2 = st ∧
    (receive_data st data).2.2.local_options = st.local_options ∧
    (receive_data st data).2.2.remote_options = st.remote_options ∧
    (pyEq v (PyVal.vbytes [251]) = false → pyEq v (PyVal.vbytes [252]) = false →
     pyEq v (PyVal.vbytes [253]) = false → pyEq v (PyVal.vbytes [254]) = false →
     respond_to_option st v opt acc = ([], st)) := by
  refine ⟨?_, ?_, ?_, ?_, ?_⟩
  · cases en <;> rfl
  · rcases cs with _ | n
    · rfl
    · by_cases h : n = 0 <;> simp [send_text, h]
  · rw [(receive_data_responses_nil st data).2]
  · rw [(receive_data_responses_nil st data).2]
  · intro h1 h2 h3 h4
    simp [respond_to_option, h1, h2, h3, h4]

/-- Witness for C10 at the NOP command byte. -/
theorem option_maps_only_respond_witness :
    respond_to_option freshSession (PyVal.vbytes [241]) [1] true = ([], freshSession) :=
  (option_maps_only_respond freshSession [1] [] [] true true none
      (PyVal.vbytes [241])).2.2.2.2 (by decide) (by decide) (by decide) (by decide)

/-- C1: receive_data never emits a negotiation response.  decode_bytes
records every negotiation verb as a latin-1 str while receive_data
compares it against the bytes constants, so the response list is empty for
every session state and every input — in particular for a complete
IAC WILL ECHO sequence, whose negotiation is nevertheless observed in the
command list. -/
theorem receive_data_never_responds :
    (∀ (st : SessionState) (data : List Nat), (receive_data st data).2.1 = []) ∧
    (decode_bytes freshDecoder [255, 251, 1]).2.1 = [(PyVal.vstr [251], [1])] ∧
    (receive_data freshSession [255, 251, 1]).2.1 = [] := by
  refine ⟨fun st data => (receive_data_responses_nil st data).1, by decide, ?_⟩
  exact (receive_data_responses_nil _ _).1

/-- C3 (amended): splitting an encoded stream at any position preserves
the command list, the final decoder state, and the concatenation of the
raw text bytes accumulated before per-call newline normalization and
stripping. -/
theorem decode_chunk_stable (st : DecoderState) (s1 s2 : List Nat) :
    (decodeLoop st (s1 ++ s2)).1 =
      (decodeLoop st s1).1 ++ (decodeLoop (decodeLoop st s1).2.2 s2).1 ∧
    (decode_bytes st (s1 ++ s2)).2.1 =
      (decode_bytes st s1).2.1 ++ (decode_bytes (decode_bytes st s1).2.2 s2).2.1 ∧
    (decode_bytes st (s1 ++ s2)).2.2 = (decode_bytes (decode_bytes st s1).2.2 s2).2.2 := by
  have h := decodeLoop_append s1 st s2
  refine ⟨by rw [h], ?_, ?_⟩ <;>
    simp [(decode_bytes_proj _ _).1, (decode_bytes_proj _ _).2, h]

/-- C3 (counterexample): the returned text is not chunk-stable, because
each decode_bytes call strips its own text — splitting the stream for the
text "a b" after the space loses the space, while the command lists agree. -/
theorem decode_chunk_text_counterexample :
    (decode_bytes freshDecoder [97, 32]).1 ++
        (decode_bytes (decode_bytes freshDecoder [97, 32]).2.2 [98]).1 ≠
      (decode_bytes freshDecoder [97, 32, 98]).1 ∧
    (decode_bytes freshDecoder [97, 32]).2.1 ++
        (decode_bytes (decode_bytes freshDecoder [97, 32]).2.2 [98]).2.1 =
      (decode_bytes freshDecoder [97, 32, 98]).2.1 := by
  decide


theorem sendNvtData_padded_len (t : List Nat) (h : (encode_text t).length ≤ 4096) :
    (sendNvtData t true).length = 4096 := by
  unfold sendNvtData encode_with_padding
  simp only [if_pos trivial]
  by_cases h2 : (encode_text t).length < 4096
  · simp [h2]
    omega
  · simp [h2]
    omega

theorem handleExec_one_padded_frame (os : Bool) (oc : ExecOutcome) (ec : List Nat) :
    ∃ r, (handleExec os oc ec).2.1 = [sendNvtData r true] := by
  unfold handleExec
  rcases shlexSplit ec with msg | parts
  · exact ⟨_, rfl⟩
  · dsimp only
    split
    · exact ⟨_, rfl⟩
    · cases oc
      · exact ⟨_, rfl⟩
      · exact ⟨_, rfl⟩

theorem recvAndProcess_quit (env : ServerEnv) :
    recvAndProcess env (strCp "quit") =
      ⟨[sendNvtData (strCp "[Server] Goodbye!\n") false], false, none, none⟩ := by
  rfl

theorem goodbye_len :
    sendNvtData (strCp "[Server] Goodbye!\n") false =
      encode_text (strCp "[Server] Goodbye!\n") ∧
    (encode_text (strCp "[Server] Goodbye!\n")).length = 19 := by
  constructor
  · rfl
  · decide

theorem pySplit_nil : pySplit [] = [] := rfl

theorem recvAndProcess_exec_route (env : ServerEnv) (command first : List Nat)
    (restParts : List (List Nat)) (h1 : pySplit command = first :: restParts)
    (h2 : lowerAscii first = strCp "exec") (h3 : restParts ≠ []) :
    recvAndProcess env command =
      ⟨(handleExec env.os_nt env.execOutcome (joinSpace restParts)).2.1,
       (handleExec env.os_nt env.execOutcome (joinSpace restParts)).2.2,
       (handleExec env.os_nt env.execOutcome (joinSpace restParts)).1, none⟩ := by
  have hcmd : command ≠ [] := by
    intro h
    rw [h, pySplit_nil] at h1
    exact List.noConfusion h1
  unfold recvAndProcess
  rw [if_neg hcmd]
  rw [h1]
  dsimp only
  rw [h2]
  rw [if_neg (by decide)]
  rw [if_pos rfl]
  rw [if_neg h3]

theorem recvAndProcess_download_route (env : ServerEnv) (command first : List Nat)
    (restParts : List (List Nat)) (h1 : pySplit command = first :: restParts)
    (h2 : lowerAscii first = strCp "download") (h3 : restParts ≠ [])
    (h4 : lookupFile env.uploadsDir (joinSpace restParts) = none) :
    recvAndProcess env command = ⟨[[48, 10]], true, none, none⟩ := by
  have hcmd : command ≠ [] := by
    intro h
    rw [h, pySplit_nil] at h1
    exact List.noConfusion h1
  unfold recvAndProcess
  rw [if_neg hcmd]
  rw [h1]
  dsimp only
  rw [h2]
  rw [if_neg (by decide), if_neg (by decide), if_pos rfl, if_neg h3, h4]

theorem handleExec_reject (os : Bool) (oc : ExecOutcome) (ec h : List Nat)
    (t : List (List Nat)) (hok : shlexSplit ec = .ok (h :: t))
    (hna : (allowed_cmds os).contains h = false) :
    (handleExec os oc ec).1 = none ∧ (handleExec os oc ec).2.2 = true ∧
    ∃ e, (handleExec os oc ec).2.1 = [sendNvtData e true] ∧ e ≠ [] := by
  unfold handleExec
  rw [hok]
  dsimp only
  rw [if_pos (Or.inr (by rw [hna]; simp))]
  refine ⟨rfl, rfl, _, rfl, ?_⟩
  simp [strCp]

theorem handleExec_spawn (os : Bool) (oc : ExecOutcome) (ec : List Nat)
    (req : SpawnRequest) (hsp : (handleExec os oc ec).1 = some req) :
    req.useShell = false ∧ req.timeoutSecs = 30 ∧
    ∃ h t, shlexSplit ec = .ok (h :: t) ∧ req.argv = h :: t ∧
      (allowed_cmds os).contains h = true := by
  unfold handleExec at hsp
  rcases hok : shlexSplit ec with msg | parts
  · rw [hok] at hsp
    exact absurd hsp (by simp)
  · rw [hok] at hsp
    dsimp only at hsp
    rcases parts with _ | ⟨h, t⟩
    · rw [if_pos (Or.inl rfl)] at hsp
      exact absurd hsp (by simp)
    · by_cases hm : (allowed_cmds os).contains h = true
      · rw [if_neg (by simp_all)] at hsp
        have hreq : req = ⟨h :: t, false, 30⟩ := by
          cases oc <;> simpa using hsp.symm
        exact ⟨by rw [hreq], by rw [hreq], h, t, rfl, by rw [hreq], hm⟩
      · rw [if_pos (Or.inr (by simp_all))] at hsp
        exact absurd hsp (by simp)

theorem encodeLoop_eq_encAux : ∀ (data acc : List Nat) (p : Bool),
    (acc.getLast? = some 13 ↔ p = true) →
    encodeFinalize (encodeLoop acc data) = acc ++ encAux p data := by
  intro data
  induction data with
  | nil =>
    intro acc p hp
    cases p with
    | true =>
      have hlast : acc.getLast? = some 13 := hp.mpr rfl
      simp [encodeLoop, encodeFinalize, encAux, hlast]
    | false =>
      have hlast : ¬ acc.getLast? = some 13 := fun h => Bool.noConfusion (hp.mp h)
      simp [encodeLoop, encodeFinalize, encAux, hlast]
  | cons b rest ih =>
    intro acc p hp
    by_cases hb : b = 255
    · subst hb
      have h2 := ih (acc ++ [255, 255]) false
        (by rw [show acc ++ [255, 255] = (acc ++ [255]) ++ [255] by simp,
              List.getLast?_concat]; simp)
      calc encodeFinalize (encodeLoop acc (255 :: rest))
          = encodeFinalize (encodeLoop (acc ++ [255, 255]) rest) := rfl
        _ = acc ++ [255, 255] ++ encAux false rest := h2
        _ = acc ++ encAux p (255 :: rest) := by simp [encAux]
    · by_cases h10 : b = 10
      · subst h10
        cases p with
        | true =>
          have hlast : acc.getLast? = some 13 := hp.mpr rfl
          have h2 := ih (acc ++ [10]) false (by rw [List.getLast?_concat]; simp)
          calc encodeFinalize (encodeLoop acc (10 :: rest))
              = encodeFinalize (if acc.getLast? = some 13 then encodeLoop (acc ++ [10]) rest
                  else encodeLoop (acc ++ [13, 10]) rest) := rfl
            _ = encodeFinalize (encodeLoop (acc ++ [10]) rest) := by rw [if_pos hlast]
            _ = acc ++ [10] ++ encAux false rest := h2
            _ = acc ++ encAux true (10 :: rest) := by simp [encAux]
        | false =>
          have hlast : ¬ acc.getLast? = some 13 := fun h => Bool.noConfusion (hp.mp h)
          have h2 := ih (acc ++ [13, 10]) false
            (by rw [show acc ++ [13, 10] = (acc ++ [13]) ++ [10] by simp,
                  List.getLast?_concat]; simp)
          calc encodeFinalize (encodeLoop acc (10 :: rest))
              = encodeFinalize (if acc.getLast? = some 13 then encodeLoop (acc ++ [10]) rest
                  else encodeLoop (acc ++ [13, 10]) rest) := rfl
            _ = encodeFinalize (encodeLoop (acc ++ [13, 10]) rest) := by rw [if_neg hlast]
            _ = acc ++ [13, 10] ++ encAux false rest := h2
            _ = acc ++ encAux false (10 :: rest) := by simp [encAux]
      · by_cases h13 : b = 13
        · subst h13
          have h2 := ih (acc ++ [13]) true (by rw [List.getLast?_concat]; simp)
          calc encodeFinalize (encodeLoop acc (13 :: rest))
              = encodeFinalize (encodeLoop (acc ++ [13]) rest) := rfl
            _ = acc ++ [13] ++ encAux true rest := h2
            _ = acc ++ encAux p (13 :: rest) := by simp [encAux]
        · have h2 := ih (acc ++ [b]) false (by rw [List.getLast?_concat]; simp [h13])
          calc encodeFinalize (encodeLoop acc (b :: rest))
              = encodeFinalize (if b = 255 then encodeLoop (acc ++ [255, 255]) rest
                  else if b = 10 then
                    (if acc.getLast? = some 13 then encodeLoop (acc ++ [10]) rest
                     else encodeLoop (acc ++ [13, 10]) rest)
                  else if b = 13 then encodeLoop (acc ++ [13]) rest
                  else encodeLoop (acc ++ [b]) rest) := rfl
            _ = encodeFinalize (encodeLoop (acc ++ [b]) rest) := by
                rw [if_neg hb, if_neg h10, if_neg h13]
            _ = acc ++ [b] ++ encAux false rest := h2
            _ = acc ++ encAux p (b :: rest) := by simp [encAux, hb, h10, h13]

theorem encodeTextData_eq (data : List Nat) : encodeTextData data = encAux false data := by
  have := encodeLoop_eq_encAux data [] false (by simp)
  simpa [encodeTextData] using this

theorem replCRLF_cons (b : Nat) (r : List Nat) (hb : b ≠ 13) :
    replCRLF (b :: r) = b :: replCRLF r := by
  rcases r with _ | ⟨c, r2⟩
  · simp [replCRLF]
  · rw [replCRLF.eq_def]
    split
    · rename_i hh; exact absurd (by injection hh) hb
    · rename_i hh
      injection hh with e1 e2
      subst e1; subst e2; rfl
    · rename_i hh; exact List.noConfusion hh

theorem replCRNUL_cons (b : Nat) (r : List Nat) (hb : b ≠ 13) :
    replCRNUL (b :: r) = b :: replCRNUL r := by
  rcases r with _ | ⟨c, r2⟩
  · simp [replCRNUL]
  · rw [replCRNUL.eq_def]
    split
    · rename_i hh; exact absurd (by injection hh) hb
    · rename_i hh
      injection hh with e1 e2
      subst e1; subst e2; rfl
    · rename_i hh; exact List.noConfusion hh

theorem replCR_cons (b : Nat) (r : List Nat) (hb : b ≠ 13) :
    replCR (b :: r) = b :: replCR r := by
  rw [replCR.eq_def]
  split
  · rename_i hh; exact absurd (by injection hh) hb
  · rename_i hh
    injection hh with e1 e2
    subst e1; subst e2; rfl
  · rename_i hh; exact List.noConfusion hh

theorem normalize_newlines_cons (b : Nat) (r : List Nat) (hb : b ≠ 13) :
    normalize_newlines (b :: r) = b :: normalize_newlines r := by
  rcases r with _ | ⟨c, r2⟩
  · rw [normalize_newlines.eq_def]
    split
    · rename_i hh
      injection hh with e1 e2
      exact List.noConfusion e2
    · rename_i hh
      injection hh with e1 e2
      exact List.noConfusion e2
    · rename_i hh; exact absurd (by injection hh) hb
    · rename_i hh
      injection hh with e1 e2
      subst e1; subst e2; rfl
    · rename_i hh; exact List.noConfusion hh
  · rw [normalize_newlines.eq_def]
    split
    · rename_i hh; exact absurd (by injection hh) hb
    · rename_i hh; exact absurd (by injection hh) hb
    · rename_i hh; exact absurd (by injection hh) hb
    · rename_i hh
      injection hh with e1 e2
      subst e1; subst e2; rfl
    · rename_i hh; exact List.noConfusion hh

theorem replCRLF_crlf (r : List Nat) : replCRLF (13 :: 10 :: r) = 10 :: replCRLF r := rfl

theorem replCRNUL_crnul (r : List Nat) : replCRNUL (13 :: 0 :: r) = 10 :: replCRNUL r := rfl

theorem replCR_cr (r : List Nat) : replCR (13 :: r) = 10 :: replCR r := rfl

theorem replCRLF_cr_other (c : Nat) (w : List Nat) (hc : c ≠ 10) :
    replCRLF (13 :: c :: w) = 13 :: replCRLF (c :: w) := by
  rw [replCRLF.eq_def]
  split
  · rename_i hh
    injection hh with e1 e2
    injection e2 with e3 e4
    exact absurd e3 hc
  · rename_i hh
    injection hh with e1 e2
    subst e1; subst e2; rfl
  · rename_i hh; exact List.noConfusion hh

theorem replCRNUL_cr_other (c : Nat) (w : List Nat) (hc : c ≠ 0) :
    replCRNUL (13 :: c :: w) = 13 :: replCRNUL (c :: w) := by
  rw [replCRNUL.eq_def]
  split
  · rename_i hh
    injection hh with e1 e2
    injection e2 with e3 e4
    exact absurd e3 hc
  · rename_i hh
    injection hh with e1 e2
    subst e1; subst e2; rfl
  · rename_i hh; exact List.noConfusion hh

theorem normalize_cr_other (c : Nat) (w : List Nat) (h10 : c ≠ 10) (h0 : c ≠ 0) :
    normalize_newlines (13 :: c :: w) = 10 :: normalize_newlines (c :: w) := by
  rw [normalize_newlines.eq_def]
  split
  · rename_i hh
    injection hh with e1 e2
    injection e2 with e3 e4
    exact absurd e3 h10
  · rename_i hh
    injection hh with e1 e2
    injection e2 with e3 e4
    exact absurd e3 h0
  · rename_i hh
    injection hh with e1 e2
    subst e2; rfl
  · rename_i g1 g2 g3 hh
    injection hh with e1 e2
    exact absurd e1.symm g3
  · rename_i hh; exact List.noConfusion hh

theorem replCRLF_13_head (z : List Nat) :
    (replCRLF (13 :: z)).head? = some 13 ∨ (replCRLF (13 :: z)).head? = some 10 := by
  rcases z with _ | ⟨c, z2⟩
  · left; rfl
  · by_cases hc : c = 10
    · subst hc; right; rfl
    · rw [replCRLF_cr_other c z2 hc]; left; rfl

theorem replCRNUL_13_headne0 (w : List Nat) (hw : w.head? ≠ some 0) :
    replCRNUL (13 :: w) = 13 :: replCRNUL w := by
  rcases w with _ | ⟨c, w2⟩
  · rfl
  · exact replCRNUL_cr_other c w2 (fun e => hw (by rw [e]; rfl))

theorem pyNorm_encAux_both : ∀ (n : Nat) (d : List Nat), d.length ≤ n → (∀ b ∈ d, b ≠ 255) →
    pyNormalize (encAux false d) = normalize_newlines d ∧
    pyNormalize (13 :: encAux true d) = normalize_newlines (13 :: d) := by
  intro n
  induction n with
  | zero =>
    intro d hlen hff
    have hd : d = [] := List.eq_nil_of_length_eq_zero (Nat.le_zero.mp hlen)
    subst hd
    exact ⟨rfl, by decide⟩
  | succ n ih =>
    intro d hlen hff
    rcases d with _ | ⟨b, rest⟩
    · exact ⟨rfl, by decide⟩
    · have hrest : rest.length ≤ n := by simp at hlen; omega
      have hffr : ∀ x ∈ rest, x ≠ 255 := fun x hx => hff x (by simp [hx])
      have hb255 : b ≠ 255 := hff b (by simp)
      have IH1 := (ih rest hrest hffr).1
      have IH2 := (ih rest hrest hffr).2
      constructor
      · by_cases h10 : b = 10
        · subst h10
          show pyNormalize (13 :: 10 :: encAux false rest) = normalize_newlines (10 :: rest)
          calc pyNormalize (13 :: 10 :: encAux false rest)
              = 10 :: pyNormalize (encAux false rest) := by
                unfold pyNormalize
                rw [replCRLF_crlf, replCRNUL_cons 10 _ (by decide), replCR_cons 10 _ (by decide)]
            _ = 10 :: normalize_newlines rest := by rw [IH1]
            _ = normalize_newlines (10 :: rest) := (normalize_newlines_cons 10 rest (by decide)).symm
        · by_cases h13 : b = 13
          · subst h13
            show pyNormalize (13 :: encAux true rest) = normalize_newlines (13 :: rest)
            exact IH2
          · have hstep : encAux false (b :: rest) = b :: encAux false rest := by
              simp [encAux, hb255, h10, h13]
            rw [hstep]
            calc pyNormalize (b :: encAux false rest)
                = b :: pyNormalize (encAux false rest) := by
                  unfold pyNormalize
                  rw [replCRLF_cons b _ h13, replCRNUL_cons b _ h13, replCR_cons b _ h13]
              _ = b :: normalize_newlines rest := by rw [IH1]
              _ = normalize_newlines (b :: rest) := (normalize_newlines_cons b rest h13).symm
      · by_cases h10 : b = 10
        · subst h10
          show pyNormalize (13 :: 10 :: encAux false rest) = normalize_newlines (13 :: 10 :: rest)
          calc pyNormalize (13 :: 10 :: encAux false rest)
              = 10 :: pyNormalize (encAux false rest) := by
                unfold pyNormalize
                rw [replCRLF_crlf, replCRNUL_cons 10 _ (by decide), replCR_cons 10 _ (by decide)]
            _ = 10 :: normalize_newlines rest := by rw [IH1]
            _ = normalize_newlines (13 :: 10 :: rest) := rfl
        · by_cases h13 : b = 13
          · subst h13
            show pyNormalize (13 :: 13 :: encAux true rest) = normalize_newlines (13 :: 13 :: rest)
            have hW := replCRLF_13_head (encAux true rest)
            have hWne : (replCRLF (13 :: encAux true rest)).head? ≠ some 0 := by
              rcases hW with h | h <;> rw [h] <;> simp
            calc pyNormalize (13 :: 13 :: encAux true rest)
                = 10 :: pyNormalize (13 :: encAux true rest) := by
                  unfold pyNormalize
                  rw [replCRLF_cr_other 13 _ (by decide), replCRNUL_13_headne0 _ hWne, replCR_cr]
              _ = 10 :: normalize_newlines (13 :: rest) := by rw [IH2]
              _ = normalize_newlines (13 :: 13 :: rest) :=
                  (normalize_cr_other 13 rest (by decide) (by decide)).symm
          · by_cases h0 : b = 0
            · subst h0
              show pyNormalize (13 :: 0 :: encAux false rest) =
                  normalize_newlines (13 :: 0 :: rest)
              calc pyNormalize (13 :: 0 :: encAux false rest)
                  = 10 :: pyNormalize (encAux false rest) := by
                    unfold pyNormalize
                    rw [replCRLF_cr_other 0 _ (by decide), replCRLF_cons 0 _ (by decide),
                        replCRNUL_crnul, replCR_cons 10 _ (by decide)]
                _ = 10 :: normalize_newlines rest := by rw [IH1]
                _ = normalize_newlines (13 :: 0 :: rest) := rfl
            · have hstep : encAux true (b :: rest) = b :: encAux false rest := by
                simp [encAux, hb255, h10, h13]
              rw [show (13 : Nat) :: encAux true (b :: rest) = 13 :: b :: encAux false rest by
                rw [hstep]]
              calc pyNormalize (13 :: b :: encAux false rest)
                  = 10 :: (b :: pyNormalize (encAux false rest)) := by
                    unfold pyNormalize
                    rw [replCRLF_cr_other b _ h10, replCRLF_cons b _ h13,
                        replCRNUL_cr_other b _ h0, replCRNUL_cons b _ h13,
                        replCR_cr, replCR_cons b _ h13]
                _ = 10 :: (b :: normalize_newlines rest) := by rw [IH1]
                _ = normalize_newlines (13 :: b :: rest) := by
                    rw [normalize_cr_other b rest h10 h0, normalize_newlines_cons b rest h13]

theorem decodeLoop_no255 : ∀ (data : List Nat), (∀ b ∈ data, b ≠ 255) →
    decodeLoop freshDecoder data = (data, [], freshDecoder) := by
  intro data
  induction data with
  | nil => intro _; rfl
  | cons b rest ih =>
    intro h
    have hb : b ≠ 255 := h b (by simp)
    have hr := ih fun x hx => h x (by simp [hx])
    rcases hdec : decodeLoop freshDecoder rest with ⟨t, c, s⟩
    rw [hdec] at hr
    have hr2 : t = rest ∧ c = [] ∧ s = freshDecoder := by simpa using hr
    simp only [freshDecoder] at hdec ⊢
    simp [decodeLoop, hb, hdec, hr2.1, hr2.2.1, hr2.2.2, freshDecoder]

theorem spaces_no13 (k : Nat) : ∀ b ∈ List.replicate k 32, b ≠ (13 : Nat) := by
  intro b hb
  rw [List.eq_of_mem_replicate hb]
  decide

theorem replCRLF_id_no13 : ∀ (l : List Nat), (∀ b ∈ l, b ≠ 13) → replCRLF l = l := by
  intro l
  induction l with
  | nil => intro _; rfl
  | cons b r ih =>
    intro h
    rw [replCRLF_cons b r (h b (by simp)), ih fun x hx => h x (by simp [hx])]

theorem replCRNUL_id_no13 : ∀ (l : List Nat), (∀ b ∈ l, b ≠ 13) → replCRNUL l = l := by
  intro l
  induction l with
  | nil => intro _; rfl
  | cons b r ih =>
    intro h
    rw [replCRNUL_cons b r (h b (by simp)), ih fun x hx => h x (by simp [hx])]

theorem replCR_id_no13 : ∀ (l : List Nat), (∀ b ∈ l, b ≠ 13) → replCR l = l := by
  intro l
  induction l with
  | nil => intro _; rfl
  | cons b r ih =>
    intro h
    rw [replCR_cons b r (h b (by simp)), ih fun x hx => h x (by simp [hx])]

theorem replCR_append : ∀ (y z : List Nat), replCR (y ++ z) = replCR y ++ replCR z := by
  intro y z
  induction y with
  | nil => rfl
  | cons b r ih =>
    by_cases hb : b = 13
    · subst hb
      simp only [List.cons_append, replCR_cr, ih]
    · simp only [List.cons_append, replCR_cons b _ hb, ih]

theorem cons32_no13 (k : Nat) : ∀ b ∈ 32 :: List.replicate k 32, b ≠ (13 : Nat) := by
  intro b hb
  rcases List.mem_cons.mp hb with h | h
  · subst h; decide
  · exact spaces_no13 k b h

theorem replCRLF_append_spaces : ∀ (n : Nat) (y : List Nat), y.length ≤ n → ∀ (k : Nat),
    replCRLF (y ++ List.replicate k 32) = replCRLF y ++ List.replicate k 32 := by
  intro n
  induction n with
  | zero =>
    intro y hy k
    have : y = [] := List.eq_nil_of_length_eq_zero (Nat.le_zero.mp hy)
    subst this
    simpa using replCRLF_id_no13 _ (spaces_no13 k)
  | succ n ih =>
    intro y hy k
    rcases y with _ | ⟨a, y2⟩
    · simpa using replCRLF_id_no13 _ (spaces_no13 k)
    · rcases y2 with _ | ⟨b, y3⟩
      · by_cases ha : a = 13
        · subst ha
          rcases k with _ | k2
          · simp
          · rw [List.replicate_succ]
            show replCRLF (13 :: 32 :: List.replicate k2 32) = replCRLF [13] ++ _
            rw [replCRLF_cr_other 32 _ (by decide),
              replCRLF_id_no13 _ (cons32_no13 k2)]
            rfl
        · show replCRLF (a :: List.replicate k 32) = replCRLF [a] ++ List.replicate k 32
          rw [replCRLF_cons a _ ha, replCRLF_cons a _ ha,
            replCRLF_id_no13 _ (spaces_no13 k)]
          rfl
      · have hlen : (b :: y3).length ≤ n := by simp at hy ⊢; omega
        have hlen2 : y3.length ≤ n := by simp at hy ⊢; omega
        have ihby := ih (b :: y3) hlen k
        simp only [List.cons_append] at ihby
        by_cases ha : a = 13
        · subst ha
          by_cases hb : b = 10
          · subst hb
            have ihy3 := ih y3 hlen2 k
            show replCRLF (13 :: 10 :: (y3 ++ _)) = replCRLF (13 :: 10 :: y3) ++ _
            rw [replCRLF_crlf, replCRLF_crlf, ihy3]
            rfl
          · show replCRLF (13 :: b :: (y3 ++ _)) = replCRLF (13 :: b :: y3) ++ _
            rw [replCRLF_cr_other b _ hb, replCRLF_cr_other b _ hb, ihby]
            rfl
        · show replCRLF (a :: (b :: (y3 ++ _))) = replCRLF (a :: b :: y3) ++ _
          rw [replCRLF_cons a _ ha, ihby, replCRLF_cons a _ ha]
          rfl

theorem replCRNUL_append_spaces : ∀ (n : Nat) (y : List Nat), y.length ≤ n → ∀ (k : Nat),
    replCRNUL (y ++ List.replicate k 32) = replCRNUL y ++ List.replicate k 32 := by
  intro n
  induction n with
  | zero =>
    intro y hy k
    have : y = [] := List.eq_nil_of_length_eq_zero (Nat.le_zero.mp hy)
    subst this
    simpa using replCRNUL_id_no13 _ (spaces_no13 k)
  | succ n ih =>
    intro y hy k
    rcases y with _ | ⟨a, y2⟩
    · simpa using replCRNUL_id_no13 _ (spaces_no13 k)
    · rcases y2 with _ | ⟨b, y3⟩
      · by_cases ha : a = 13
        · subst ha
          rcases k with _ | k2
          · simp
          · rw [List.replicate_succ]
            show replCRNUL (13 :: 32 :: List.replicate k2 32) = replCRNUL [13] ++ _
            rw [replCRNUL_cr_other 32 _ (by decide),
              replCRNUL_id_no13 _ (cons32_no13 k2)]
            rfl
        · show replCRNUL (a :: List.replicate k 32) = replCRNUL [a] ++ List.replicate k 32
          rw [replCRNUL_cons a _ ha, replCRNUL_cons a _ ha,
            replCRNUL_id_no13 _ (spaces_no13 k)]
          rfl
      · have hlen : (b :: y3).length ≤ n := by simp at hy ⊢; omega
        have hlen2 : y3.length ≤ n := by simp at hy ⊢; omega
        have ihby := ih (b :: y3) hlen k
        simp only [List.cons_append] at ihby
        by_cases ha : a = 13
        · subst ha
          by_cases hb : b = 0
          · subst hb
            have ihy3 := ih y3 hlen2 k
            show replCRNUL (13 :: 0 :: (y3 ++ _)) = replCRNUL (13 :: 0 :: y3) ++ _
            rw [replCRNUL_crnul, replCRNUL_crnul, ihy3]
            rfl
          · show replCRNUL (13 :: b :: (y3 ++ _)) = replCRNUL (13 :: b :: y3) ++ _
            rw [replCRNUL_cr_other b _ hb, replCRNUL_cr_other b _ hb, ihby]
            rfl
        · show replCRNUL (a :: (b :: (y3 ++ _))) = replCRNUL (a :: b :: y3) ++ _
          rw [replCRNUL_cons a _ ha, ihby, replCRNUL_cons a _ ha]
          rfl

theorem pyNormalize_append_spaces (y : List Nat) (k : Nat) :
    pyNormalize (y ++ List.replicate k 32) = pyNormalize y ++ List.replicate k 32 := by
  unfold pyNormalize
  rw [replCRLF_append_spaces y.length y (le_refl _) k,
    replCRNUL_append_spaces (replCRLF y).length (replCRLF y) (le_refl _) k,
    replCR_append, replCR_id_no13 _ (spaces_no13 k)]

theorem utf8Encode_cons (c : Nat) (r : List Nat) :
    utf8Encode (c :: r) = utf8EncodeChar c ++ utf8Encode r := by
  simp [utf8Encode]

theorem utf8EncodeChar_bytes_le (c : Nat) (hc : c < 0x110000) :
    ∀ b ∈ utf8EncodeChar c, b ≤ 0xF4 := by
  intro b hb
  unfold utf8EncodeChar at hb
  split_ifs at hb with h1 h2 h3 h4
  · simp at hb; omega
  · simp at hb; rcases hb with rfl | rfl <;> omega
  · simp at hb; omega
  · simp at hb; rcases hb with rfl | rfl | rfl <;> omega
  · simp at hb; rcases hb with rfl | rfl | rfl | rfl <;> omega

theorem utf8Encode_no255 (t : List Nat) (hv : ∀ c ∈ t, c < 0x110000) :
    ∀ b ∈ utf8Encode t, b ≠ 255 := by
  intro b hb
  unfold utf8Encode at hb
  rw [List.mem_flatten] at hb
  obtain ⟨l, hl, hbl⟩ := hb
  rw [List.mem_map] at hl
  obtain ⟨c, hc, rfl⟩ := hl
  have := utf8EncodeChar_bytes_le c (hv c hc) b hbl
  omega

theorem utf8EncodeChar_no13 (c : Nat) (hc : c ≠ 13) :
    ∀ b ∈ utf8EncodeChar c, b ≠ 13 := by
  intro b hb
  unfold utf8EncodeChar at hb
  split_ifs at hb with h1 h2 h3 h4
  · simp at hb; omega
  · simp at hb; rcases hb with rfl | rfl <;> omega
  · simp at hb; omega
  · simp at hb; rcases hb with rfl | rfl | rfl <;> omega
  · simp at hb; rcases hb with rfl | rfl | rfl | rfl <;> omega

theorem utf8EncodeChar_head (c : Nat) :
    ∃ h tl, utf8EncodeChar c = h :: tl ∧ (c < 0x80 → h = c) ∧ (¬ c < 0x80 → 0x3F ≤ h) := by
  unfold utf8EncodeChar
  split_ifs with h1 h2 h3 h4
  · exact ⟨c, [], rfl, fun _ => rfl, fun hn => absurd h1 hn⟩
  · exact ⟨_, _, rfl, fun hn => absurd hn (by omega), fun _ => by omega⟩
  · exact ⟨_, _, rfl, fun hn => absurd hn (by omega), fun _ => by omega⟩
  · exact ⟨_, _, rfl, fun hn => absurd hn (by omega), fun _ => by omega⟩
  · exact ⟨_, _, rfl, fun hn => absurd hn (by omega), fun _ => by omega⟩

theorem normalize_append_no13 : ∀ (chunk X : List Nat), (∀ b ∈ chunk, b ≠ 13) →
    normalize_newlines (chunk ++ X) = chunk ++ normalize_newlines X := by
  intro chunk
  induction chunk with
  | nil => intro X _; rfl
  | cons b r ih =>
    intro X h
    rw [List.cons_append, normalize_newlines_cons b _ (h b (by simp)),
      ih X fun x hx => h x (by simp [hx])]
    rfl

theorem norm_utf8_comm : ∀ (n : Nat) (t : List Nat), t.length ≤ n →
    normalize_newlines (utf8Encode t) = utf8Encode (normalize_newlines t) := by
  intro n
  induction n with
  | zero =>
    intro t ht
    have : t = [] := List.eq_nil_of_length_eq_zero (Nat.le_zero.mp ht)
    subst this
    rfl
  | succ n ih =>
    intro t ht
    rcases t with _ | ⟨c, rest⟩
    · rfl
    · have hrest : rest.length ≤ n := by simp at ht; omega
      by_cases hc13 : c = 13
      · subst hc13
        rcases rest with _ | ⟨c2, r2⟩
        · decide
        · have hr2 : r2.length ≤ n := by simp at ht; omega
          have hrest2 : (c2 :: r2).length ≤ n := by simp at ht ⊢; omega
          by_cases hc2a : c2 = 10
          · subst hc2a
            rw [utf8Encode_cons, utf8Encode_cons]
            show normalize_newlines (13 :: 10 :: utf8Encode r2) = _
            rw [show normalize_newlines (13 :: 10 :: utf8Encode r2) =
                10 :: normalize_newlines (utf8Encode r2) from rfl, ih r2 hr2]
            rfl
          · by_cases hc2b : c2 = 0
            · subst hc2b
              rw [utf8Encode_cons, utf8Encode_cons]
              show normalize_newlines (13 :: 0 :: utf8Encode r2) = _
              rw [show normalize_newlines (13 :: 0 :: utf8Encode r2) =
                  10 :: normalize_newlines (utf8Encode r2) from rfl, ih r2 hr2]
              rfl
            · obtain ⟨h, tl, hhd, hsm, hlg⟩ := utf8EncodeChar_head c2
              have h10 : h ≠ 10 := by
                by_cases hs : c2 < 0x80
                · rw [hsm hs]; exact hc2a
                · have := hlg hs; omega
              have h0 : h ≠ 0 := by
                by_cases hs : c2 < 0x80
                · rw [hsm hs]; exact hc2b
                · have := hlg hs; omega
              rw [utf8Encode_cons, utf8Encode_cons, hhd]
              show normalize_newlines (13 :: (h :: tl ++ utf8Encode r2)) = _
              rw [show (13 : Nat) :: (h :: tl ++ utf8Encode r2) =
                  13 :: h :: (tl ++ utf8Encode r2) from rfl,
                normalize_cr_other h _ h10 h0,
                show h :: (tl ++ utf8Encode r2) = (h :: tl) ++ utf8Encode r2 from rfl,
                ← hhd, ← utf8Encode_cons, ih (c2 :: r2) hrest2,
                normalize_cr_other c2 r2 hc2a hc2b]
              rfl
      · rw [utf8Encode_cons,
          normalize_append_no13 _ _ (utf8EncodeChar_no13 c hc13), ih rest hrest,
          normalize_newlines_cons c rest hc13]
        rfl

theorem utf8dec_ascii (b : Nat) (r : List Nat) (h : b < 0x80) :
    utf8DecodeReplace (b :: r) = b :: utf8DecodeReplace r := by
  rw [utf8DecodeReplace.eq_def]
  dsimp only
  rw [if_pos h]

theorem utf8_roundtrip_append : ∀ (t z : List Nat),
    (∀ c ∈ t, c < 0x110000 ∧ ¬ (0xD800 ≤ c ∧ c < 0xE000)) →
    utf8DecodeReplace (utf8Encode t ++ z) = t ++ utf8DecodeReplace z := by
  intro t
  induction t with
  | nil => intro z _; rfl
  | cons c rest ih =>
    intro z hv
    obtain ⟨hlt, hsur⟩ := hv c (by simp)
    have ihz := ih z fun x hx => (hv x (by simp [hx]))
    rw [utf8Encode_cons, List.append_assoc]
    by_cases h1 : c < 0x80
    · rw [show utf8EncodeChar c = [c] by unfold utf8EncodeChar; rw [if_pos h1]]
      show utf8DecodeReplace (c :: (utf8Encode rest ++ z)) = _
      rw [utf8dec_ascii c _ h1, ihz]
      rfl
    · by_cases h2 : c < 0x800
      · rw [show utf8EncodeChar c = [0xC0 + c / 64, 0x80 + c % 64] by
          unfold utf8EncodeChar; rw [if_neg h1, if_pos h2]]
        show utf8DecodeReplace
            ((0xC0 + c / 64) :: (0x80 + c % 64) :: (utf8Encode rest ++ z)) = _
        rw [utf8DecodeReplace.eq_def]
        dsimp only
        rw [if_neg (by omega), if_pos (by constructor <;> omega),
          if_pos (by simp [isUtf8Cont]; omega)]
        rw [show (0xC0 + c / 64 - 0xC0) * 64 + (0x80 + c % 64 - 0x80) = c by omega, ihz]
        rfl
      · by_cases h3 : c < 0x10000
        · rw [show utf8EncodeChar c = [0xE0 + c / 4096, 0x80 + c / 64 % 64, 0x80 + c % 64] by
            unfold utf8EncodeChar
            rw [if_neg h1, if_neg h2, if_neg (by tauto), if_pos h3]]
          show utf8DecodeReplace
              ((0xE0 + c / 4096) :: (0x80 + c / 64 % 64) :: (0x80 + c % 64) ::
                (utf8Encode rest ++ z)) = _
          rw [utf8DecodeReplace.eq_def]
          dsimp only
          have hok : utf8Cont1Ok (0xE0 + c / 4096) (0x80 + c / 64 % 64) = true := by
            unfold utf8Cont1Ok
            split_ifs with e1 e2 e3 e4 <;> simp [isUtf8Cont] <;> omega
          rw [if_neg (by omega), if_neg (by omega), if_pos (by constructor <;> omega),
            if_pos hok, if_pos (by simp [isUtf8Cont]; omega)]
          rw [show (0xE0 + c / 4096 - 0xE0) * 4096 + (0x80 + c / 64 % 64 - 0x80) * 64 +
              (0x80 + c % 64 - 0x80) = c by omega, ihz]
          rfl
        · rw [show utf8EncodeChar c =
              [0xF0 + c / 0x40000, 0x80 + c / 4096 % 64, 0x80 + c / 64 % 64, 0x80 + c % 64] by
            unfold utf8EncodeChar
            rw [if_neg h1, if_neg h2, if_neg (by tauto), if_neg h3]]
          show utf8DecodeReplace
              ((0xF0 + c / 0x40000) :: (0x80 + c / 4096 % 64) :: (0x80 + c / 64 % 64) ::
                (0x80 + c % 64) :: (utf8Encode rest ++ z)) = _
          rw [utf8DecodeReplace.eq_def]
          dsimp only
          have hok : utf8Cont1Ok (0xF0 + c / 0x40000) (0x80 + c / 4096 % 64) = true := by
            unfold utf8Cont1Ok
            split_ifs with e1 e2 e3 e4 <;> simp [isUtf8Cont] <;> omega
          rw [if_neg (by omega), if_neg (by omega), if_neg (by omega),
            if_pos (by constructor <;> omega), if_pos hok,
            if_pos (by simp [isUtf8Cont]; omega), if_pos (by simp [isUtf8Cont]; omega)]
          rw [show (0xF0 + c / 0x40000 - 0xF0) * 0x40000 + (0x80 + c / 4096 % 64 - 0x80) * 4096 +
              (0x80 + c / 64 % 64 - 0x80) * 64 + (0x80 + c % 64 - 0x80) = c by omega, ihz]
          rfl

theorem utf8dec_spaces (k : Nat) :
    utf8DecodeReplace (List.replicate k 32) = List.replicate k 32 := by
  induction k with
  | zero => rfl
  | succ n ih =>
    rw [List.replicate_succ, utf8dec_ascii 32 _ (by decide), ih]

theorem dropWhile_append_nil (p : Nat → Bool) :
    ∀ (x y : List Nat), x.dropWhile p = [] → (x ++ y).dropWhile p = y.dropWhile p := by
  intro x y
  induction x with
  | nil => intro _; rfl
  | cons a x2 ih =>
    intro h
    rw [List.dropWhile_cons] at h
    split at h
    · rename_i hpa
      rw [List.cons_append, List.dropWhile_cons, if_pos hpa]
      exact ih h
    · exact absurd h (by simp)

theorem dropWhile_append_ne_nil (p : Nat → Bool) :
    ∀ (x y : List Nat), x.dropWhile p ≠ [] → (x ++ y).dropWhile p = x.dropWhile p ++ y := by
  intro x y
  induction x with
  | nil => intro h; exact absurd rfl h
  | cons a x2 ih =>
    intro h
    rw [List.dropWhile_cons] at h
    rw [List.cons_append, List.dropWhile_cons, List.dropWhile_cons]
    split at h
    · rename_i hpa
      simp only [if_pos hpa]
      exact ih h
    · rename_i hpa
      simp only [if_neg hpa]
      rfl

theorem dropWhile_spaces (k : Nat) :
    (List.replicate k 32).dropWhile isPySpace = [] := by
  induction k with
  | zero => rfl
  | succ n ih =>
    rw [List.replicate_succ, List.dropWhile_cons, if_pos (by decide)]
    exact ih

theorem stripWs_append_spaces (x : List Nat) (k : Nat) :
    stripWs (x ++ List.replicate k 32) = stripWs x := by
  unfold stripWs
  by_cases hx : x.dropWhile isPySpace = []
  · rw [dropWhile_append_nil _ x _ hx, dropWhile_spaces, hx]
  · rw [dropWhile_append_ne_nil _ x _ hx, List.reverse_append, List.reverse_replicate,
      dropWhile_append_nil _ _ _ (dropWhile_spaces k)]

theorem encAux_no255 : ∀ (d : List Nat) (p : Bool), (∀ b ∈ d, b ≠ 255) →
    ∀ b ∈ encAux p d, b ≠ 255 := by
  intro d
  induction d with
  | nil =>
    intro p _ b hb
    cases p <;> simp [encAux] at hb
    · omega
  | cons c rest ih =>
    intro p h b hb
    have hc : c ≠ 255 := h c (by simp)
    have hr : ∀ x ∈ rest, x ≠ 255 := fun x hx => h x (by simp [hx])
    by_cases h10 : c = 10
    · subst h10
      cases p with
      | true =>
        rw [show encAux true (10 :: rest) = 10 :: encAux false rest from rfl] at hb
        rcases List.mem_cons.mp hb with rfl | hb2
        · decide
        · exact ih false hr b hb2
      | false =>
        rw [show encAux false (10 :: rest) = 13 :: 10 :: encAux false rest from rfl] at hb
        rcases List.mem_cons.mp hb with rfl | hb2
        · decide
        · rcases List.mem_cons.mp hb2 with rfl | hb3
          · decide
          · exact ih false hr b hb3
    · by_cases h13 : c = 13
      · subst h13
        rw [show encAux p (13 :: rest) = 13 :: encAux true rest from rfl] at hb
        rcases List.mem_cons.mp hb with rfl | hb2
        · decide
        · exact ih true hr b hb2
      · rw [show encAux p (c :: rest) = c :: encAux false rest by
          simp [encAux, hc, h10, h13]] at hb
        rcases List.mem_cons.mp hb with rfl | hb2
        · exact hc
        · exact ih false hr b hb2

theorem normalize_mem : ∀ (n : Nat) (t : List Nat), t.length ≤ n →
    ∀ c ∈ normalize_newlines t, c ∈ t ∨ c = 10 := by
  intro n
  induction n with
  | zero =>
    intro t ht c hc
    have : t = [] := List.eq_nil_of_length_eq_zero (Nat.le_zero.mp ht)
    subst this
    simp [normalize_newlines] at hc
  | succ n ih =>
    intro t ht c hc
    rcases t with _ | ⟨a, rest⟩
    · simp [normalize_newlines] at hc
    · have hr : rest.length ≤ n := by simp at ht; omega
      by_cases ha : a = 13
      · subst ha
        rcases rest with _ | ⟨b, r2⟩
        · rw [show normalize_newlines [13] = [10] from rfl] at hc
          simp at hc
          right; exact hc
        · have hr2 : r2.length ≤ n := by simp at ht; omega
          have hbr : (b :: r2).length ≤ n := by simp at ht ⊢; omega
          by_cases hb10 : b = 10
          · subst hb10
            rw [show normalize_newlines (13 :: 10 :: r2) = 10 :: normalize_newlines r2
              from rfl] at hc
            rcases List.mem_cons.mp hc with rfl | hc2
            · right; rfl
            · rcases ih r2 hr2 c hc2 with h | h
              · left; simp [h]
              · right; exact h
          · by_cases hb0 : b = 0
            · subst hb0
              rw [show normalize_newlines (13 :: 0 :: r2) = 10 :: normalize_newlines r2
                from rfl] at hc
              rcases List.mem_cons.mp hc with rfl | hc2
              · right; rfl
              · rcases ih r2 hr2 c hc2 with h | h
                · left; simp [h]
                · right; exact h
            · rw [normalize_cr_other b r2 hb10 hb0] at hc
              rcases List.mem_cons.mp hc with rfl | hc2
              · right; rfl
              · rcases ih (b :: r2) hbr c hc2 with h | h
                · left; simp at h ⊢; tauto
                · right; exact h
      · rw [normalize_newlines_cons a rest ha] at hc
        rcases List.mem_cons.mp hc with rfl | hc2
        · left; simp
        · rcases ih rest hr c hc2 with h | h
          · left; simp [h]
          · right; exact h

theorem decode_encode_general (t : List Nat) (k : Nat)
    (hv : ∀ c ∈ t, c < 0x110000 ∧ ¬ (0xD800 ≤ c ∧ c < 0xE000)) :
    decode_bytes freshDecoder (encode_text t ++ List.replicate k 32) =
      (stripWs (normalize_newlines t), [], freshDecoder) := by
  have hvl : ∀ c ∈ t, c < 0x110000 := fun c hc => (hv c hc).1
  have hff : ∀ b ∈ utf8Encode t, b ≠ 255 := utf8Encode_no255 t hvl
  have henc : encode_text t = encAux false (utf8Encode t) := encodeTextData_eq _
  have hff2 : ∀ b ∈ encAux false (utf8Encode t), b ≠ 255 := encAux_no255 _ false hff
  have hff3 : ∀ b ∈ encAux false (utf8Encode t) ++ List.replicate k 32, b ≠ 255 := by
    intro b hb
    rcases List.mem_append.mp hb with h | h
    · exact hff2 b h
    · rw [List.eq_of_mem_replicate h]; decide
  have hnv : ∀ c ∈ normalize_newlines t, c < 0x110000 ∧ ¬ (0xD800 ≤ c ∧ c < 0xE000) := by
    intro c hc
    rcases normalize_mem t.length t (le_refl _) c hc with h | h
    · exact hv c h
    · subst h; refine ⟨by omega, by omega⟩
  unfold decode_bytes
  rw [henc, decodeLoop_no255 _ hff3]
  dsimp only
  rw [pyNormalize_append_spaces,
    (pyNorm_encAux_both (utf8Encode t).length (utf8Encode t) (le_refl _) hff).1,
    norm_utf8_comm t.length t (le_refl _),
    utf8_roundtrip_append (normalize_newlines t) (List.replicate k 32) hnv,
    utf8dec_spaces, stripWs_append_spaces]

theorem receive_data_fst (st : SessionState) (data : List Nat) :
    (receive_data st data).1 = (decode_bytes st.decoder data).1 := by
  unfold receive_data
  rcases h : decode_bytes st.decoder data with ⟨t, c, s⟩
  rcases h2 : autoRespond { st with decoder := s } c with ⟨rs, st2⟩
  simp [h, h2]

/-- C4 (amended): decoding the encoding of a text on a fresh decoder
returns normalize_newlines of the text stripped of leading and trailing
whitespace (the stripping the claim omits), with no commands observed. -/
theorem decode_encode_roundtrip (t : List Nat)
    (hv : ∀ c ∈ t, c < 0x110000 ∧ ¬ (0xD800 ≤ c ∧ c < 0xE000))
    (_hff : ¬ 255 ∈ utf8Encode t) :
    decode_bytes freshDecoder (encode_text t) =
      (stripWs (normalize_newlines t), [], freshDecoder) := by
  have h := decode_encode_general t 0 hv
  simpa using h

/-- Witness for C4 at the text "ab\n". -/
theorem decode_encode_roundtrip_witness :
    decode_bytes freshDecoder (encode_text [97, 98, 10]) =
      (stripWs (normalize_newlines [97, 98, 10]), [], freshDecoder) :=
  decode_encode_roundtrip [97, 98, 10] (by decide) (by decide)

/-- C4 (counterexample): for the text "a\n" the decoded round trip drops
the trailing newline that normalize_newlines keeps, because decode_bytes
strips its result, refuting the claim as stated. -/
theorem decode_encode_strip_counterexample :
    ¬ 255 ∈ utf8Encode [97, 10] ∧
    (decode_bytes freshDecoder (encode_text [97, 10])).1 ≠ normalize_newlines [97, 10] := by
  decide

theorem sendNvtData_padded_split (t : List Nat) (h : (encode_text t).length < 4096) :
    sendNvtData t true =
      encode_text t ++ List.replicate (4096 - (encode_text t).length) 32 := by
  show encode_with_padding t 4096 = _
  unfold encode_with_padding
  rw [if_pos h]

/-- C9 (counterexample): the server reply frame for an allowlisted command
that succeeded with empty stderr carries Error: followed by (none); the
client decodes that frame and reports exit code 1, not success, with
stdout taken from the Output: section. -/
theorem exec_success_reply :
    (handleExec false (ExecOutcome.completed (strCp "file.txt") []) (strCp "ls")).2.1 =
      [sendNvtData (strCp "[Server response]\nOutput:\nfile.txt\nError:\n(none)\n") true] ∧
    (execParse (receive_data freshSession
        (sendNvtData (strCp "[Server response]\nOutput:\nfile.txt\nError:\n(none)\n")
          true)).1).exit_code = 1 ∧
    (execParse (receive_data freshSession
        (sendNvtData (strCp "[Server response]\nOutput:\nfile.txt\nError:\n(none)\n")
          true)).1).stdout = strCp "file.txt" := by
  have hpad := sendNvtData_padded_split
    (strCp "[Server response]\nOutput:\nfile.txt\nError:\n(none)\n") (by decide)
  have hdec := decode_encode_general
    (strCp "[Server response]\nOutput:\nfile.txt\nError:\n(none)\n")
    (4096 - (encode_text (strCp "[Server response]\nOutput:\nfile.txt\nError:\n(none)\n")).length)
    (by decide)
  have htext : (receive_data freshSession
      (sendNvtData (strCp "[Server response]\nOutput:\nfile.txt\nError:\n(none)\n") true)).1 =
      stripWs (normalize_newlines
        (strCp "[Server response]\nOutput:\nfile.txt\nError:\n(none)\n")) := by
    rw [receive_data_fst, hpad]
    rw [show freshSession.decoder = freshDecoder from rfl, hdec]
  refine ⟨?_, ?_, ?_⟩
  · have htxt2 : strCp "[Server response]\nOutput:\n" ++ strCp "file.txt" ++
        strCp "\nError:\n" ++ strCp "(none)" ++ [10] =
        strCp "[Server response]\nOutput:\nfile.txt\nError:\n(none)\n" := by decide
    show (handleExec false (ExecOutcome.completed (strCp "file.txt") []) (strCp "ls")).2.1 = _
    unfold handleExec
    rw [show shlexSplit (strCp "ls") = .ok [strCp "ls"] from by decide]
    dsimp only
    rw [if_neg (by decide)]
    dsimp only
    rw [show (if strCp "file.txt" = ([] : List Nat) then strCp "(empty)"
        else strCp "file.txt") = strCp "file.txt" from by decide,
      show (if ([] : List Nat) = ([] : List Nat) then strCp "(none)"
        else ([] : List Nat)) = strCp "(none)" from by decide]
    rw [htxt2]
  · rw [htext]
    decide
  · rw [htext]
    decide

/-- C5 (counterexample): a bytes input containing the raw byte 0xFF is
transcoded through UTF-8 with replacement before the escape loop runs, so
encode emits EF BF BD (U+FFFD), no FF FF pair appears, and the round trip
returns U+FFFD rather than a literal 0xFF. -/
theorem iac_escape_counterexample :
    encode_text_ofBytes [255] = [239, 191, 189] ∧
    ¬ 255 ∈ encode_text_ofBytes [255] ∧
    (decode_bytes freshDecoder (encode_text_ofBytes [255])).1 = [0xFFFD] ∧
    ¬ 255 ∈ (decode_bytes freshDecoder (encode_text_ofBytes [255])).1 := by
  decide

/-- C5 (amended): the encoder loop does double a 0xFF byte of its
post-transcode data and the decoder folds each IAC IAC pair back to one
literal 0xFF in its raw text buffer, but the UTF-8 transcode stage never
produces a 0xFF byte, so the doubling branch is unreachable and a raw 0xFF
byte of a bytes input becomes U+FFFD instead of surviving the round trip. -/
theorem iac_escape_amended (r s : List Nat) (hv : ∀ c ∈ s, c < 0x110000) :
    encodeTextData (255 :: r) = 255 :: 255 :: encAux false r ∧
    decodeLoop freshDecoder (255 :: 255 :: r) =
      (255 :: (decodeLoop freshDecoder r).1, (decodeLoop freshDecoder r).2.1,
       (decodeLoop freshDecoder r).2.2) ∧
    ¬ 255 ∈ utf8Encode s ∧
    utf8DecodeReplace [255] = [0xFFFD] ∧ utf8Encode [0xFFFD] = [239, 191, 189] := by
  refine ⟨?_, ?_, ?_, by decide, by decide⟩
  · rw [encodeTextData_eq]
    rfl
  · rcases hd : decodeLoop freshDecoder r with ⟨t, c, s2⟩
    simp only [freshDecoder] at hd ⊢
    simp [decodeLoop, hd]
  · intro h
    exact utf8Encode_no255 s hv 255 h rfl

/-- Witness for C5 on a two-character text including a non-ASCII code
point. -/
theorem iac_escape_amended_witness :
    ¬ 255 ∈ utf8Encode [72, 0x1F600] :=
  (iac_escape_amended [] [72, 0x1F600] (by decide)).2.2.1

/-- C9 (amended): when the Output: or Error: label is absent the client
reports exit code 0 with stdout the whole stripped reply; when both labels
are present the exit code is 0 exactly when the extracted stderr text is
empty, and since the server writes the placeholder (none) for an empty
stderr, a successful command is reported with exit code 1. -/
theorem exec_reply_parsing (output : List Nat) :
    (¬ (containsSub output (strCp "Output:") = true ∧
        containsSub output (strCp "Error:") = true) →
      (execParse output).exit_code = 0 ∧ (execParse output).stdout = stripWs output) ∧
    ((execParse output).exit_code = 0 ↔ (execParse output).stderr = []) ∧
    (execParse (strCp "[Server response]\nOutput:\nhi\nError:\n(none)")).exit_code = 1 := by
  refine ⟨?_, ?_, by decide⟩
  · intro h
    have hstd : execParseStd output = (stripWs output, []) := by
      unfold execParseStd
      rw [if_neg h]
    constructor
    · show (if (execParseStd output).2 = [] then 0 else 1) = 0
      rw [hstd]
      rfl
    · show (execParseStd output).1 = _
      rw [hstd]
  · show (if (execParseStd output).2 = [] then 0 else 1) = 0 ↔ (execParseStd output).2 = []
    by_cases h : (execParseStd output).2 = []
    · rw [if_pos h]
      exact ⟨fun _ => h, fun _ => rfl⟩
    · rw [if_neg h]
      constructor
      · intro hh; exact absurd hh (by decide)
      · intro hh; exact absurd hh h

/-- Witness for C9 on a reply with no labelled sections. -/
theorem exec_reply_parsing_witness :
    (execParse (strCp "hello")).exit_code = 0 ∧
    (execParse (strCp "hello")).stdout = stripWs (strCp "hello") :=
  (exec_reply_parsing (strCp "hello")).1 (by decide)

/-- C2 (amended): only the exec branch sends 4096-byte padded frames: a
padded send is exactly 4096 bytes whenever the encoding fits, and every
exec reply is one padded frame; the quit farewell (like the upload ack,
send-message ack and unknown-command reply, which use the same unpadded
send) goes out as the bare 19-byte NVT encoding. -/
theorem command_frames_padding (t ec : List Nat) (env : ServerEnv) (os : Bool)
    (oc : ExecOutcome) :
    ((encode_text t).length ≤ 4096 → (sendNvtData t true).length = 4096) ∧
    (∃ r, (handleExec os oc ec).2.1 = [sendNvtData r true]) ∧
    recvAndProcess env (strCp "quit") =
      ⟨[sendNvtData (strCp "[Server] Goodbye!\n") false], false, none, none⟩ ∧
    sendNvtData (strCp "[Server] Goodbye!\n") false =
      encode_text (strCp "[Server] Goodbye!\n") ∧
    (encode_text (strCp "[Server] Goodbye!\n")).length = 19 :=
  ⟨sendNvtData_padded_len t, handleExec_one_padded_frame os oc ec,
   recvAndProcess_quit env, rfl, by decide⟩

/-- Witness for C2 at a one-character text. -/
theorem command_frames_padding_witness :
    (sendNvtData (strCp "x") true).length = 4096 :=
  (command_frames_padding (strCp "x") [] ⟨false, [], [], [], [], .completed [] []⟩ false
      (.completed [] [])).1 (by decide)

/-- C2 (counterexample): the quit farewell frame is written with 19 bytes,
not 4096, refuting that every short reply is a 4096-byte padded frame. -/
theorem frames_not_all_padded_counterexample :
    (recvAndProcess ⟨false, [], [], [], [], ExecOutcome.completed [] []⟩
        (strCp "quit")).writes.map List.length = [19] ∧ (19 : Nat) ≠ 4096 := by
  constructor
  · rfl
  · decide

/-- C6: when the first shlex token of an exec command line is not in the
OS allowlist the handler spawns nothing, stays connected and answers with
one non-empty padded error frame; any spawn that does happen uses no
shell, a 30-second timeout, and an argument vector whose head is an exact
allowlist member; and the dispatcher routes every exec command to exactly
this handler. -/
theorem exec_allowlist_enforced (os : Bool) (oc : ExecOutcome) (ec : List Nat)
    (env : ServerEnv) (command first : List Nat) (restParts : List (List Nat)) :
    (∀ h t, shlexSplit ec = .ok (h :: t) → (allowed_cmds os).contains h = false →
      (handleExec os oc ec).1 = none ∧ (handleExec os oc ec).2.2 = true ∧
      ∃ e, (handleExec os oc ec).2.1 = [sendNvtData e true] ∧ e ≠ []) ∧
    (∀ req, (handleExec os oc ec).1 = some req →
      req.useShell = false ∧ req.timeoutSecs = 30 ∧
      ∃ h t, shlexSplit ec = .ok (h :: t) ∧ req.argv = h :: t ∧
        (allowed_cmds os).contains h = true) ∧
    (pySplit command = first :: restParts → lowerAscii first = strCp "exec" →
      restParts ≠ [] →
      recvAndProcess env command =
        ⟨(handleExec env.os_nt env.execOutcome (joinSpace restParts)).2.1,
         (handleExec env.os_nt env.execOutcome (joinSpace restParts)).2.2,
         (handleExec env.os_nt env.execOutcome (joinSpace restParts)).1, none⟩) :=
  ⟨fun h t hok hna => handleExec_reject os oc ec h t hok hna,
   fun req hsp => handleExec_spawn os oc ec req hsp,
   fun h1 h2 h3 => recvAndProcess_exec_route env command first restParts h1 h2 h3⟩

/-- Witness for C6: exec rm -rf / is rejected with no spawn. -/
theorem exec_allowlist_enforced_witness :
    (handleExec false (ExecOutcome.completed [] []) (strCp "rm -rf /")).1 = none ∧
    recvAndProcess ⟨false, [], [], [], [], ExecOutcome.completed [] []⟩
        (strCp "exec rm -rf /") =
      ⟨(handleExec false (ExecOutcome.completed [] []) (strCp "rm -rf /")).2.1,
       (handleExec false (ExecOutcome.completed [] []) (strCp "rm -rf /")).2.2,
       (handleExec false (ExecOutcome.completed [] []) (strCp "rm -rf /")).1, none⟩ := by
  have h := exec_allowlist_enforced false (.completed [] []) (strCp "rm -rf /")
    ⟨false, [], [], [], [], .completed [] []⟩ (strCp "exec rm -rf /") (strCp "exec")
    [strCp "rm", strCp "-rf", strCp "/"]
  refine ⟨(h.1 (strCp "rm") [strCp "-rf", strCp "/"] (by decide) (by decide)).1, ?_⟩
  have h3 := h.2.2 (by decide) (by decide) (by decide)
  exact h3

/-- C8: a download request for a file absent from the uploads directory
makes the server write exactly the two plain bytes "0\n" and continue, and
a client that decodes that reply reads size 0 and returns the
File-not-found error result without entering the binary read. -/
theorem download_missing (env : ServerEnv) (command first : List Nat)
    (restParts : List (List Nat)) :
    (pySplit command = first :: restParts → lowerAscii first = strCp "download" →
      restParts ≠ [] → lookupFile env.uploadsDir (joinSpace restParts) = none →
      recvAndProcess env command = ⟨[[48, 10]], true, none, none⟩) ∧
    (receive_data freshSession [48, 10]).1 = [48] ∧
    downloadSizeStep (receive_data freshSession [48, 10]).1 =
      ClientDlStep.errorResult (strCp "Error") (strCp "File not found on server") :=
  ⟨recvAndProcess_download_route env command first restParts, by decide, by decide⟩

/-- Witness for C8 at the command download missing.txt against an empty
uploads directory. -/
theorem download_missing_witness :
    recvAndProcess ⟨false, [], [], [], [], ExecOutcome.completed [] []⟩
        (strCp "download missing.txt") = ⟨[[48, 10]], true, none, none⟩ :=
  (download_missing ⟨false, [], [], [], [], .completed [] []⟩ (strCp "download missing.txt")
      (strCp "download") [strCp "missing.txt"]).1 (by decide) (by decide) (by decide) rfl
